import Mathlib

/-!
# Verification of the `awt` contact-center simulator core

A shallow embedding of the simulation engine (`awt-simulation`), its request
lifecycle state machine (`src/simulation/request/mod.rs`), the routing policy
(`awt-simulation/src/routing/mod.rs`) and the metric accumulators
(`awt-metrics`), together with theorems settling the specification claims.

Modelling conventions:
* `core::time::Duration` is modelled as `Nat` (nanoseconds).
* Rust panics (`assert!`, `expect`, `todo!`) are modelled by `Option`:
  `none` is a panic.
* `Rc<RefCell<Request>>` sharing between the request store, the pending heap
  and the waiting map is modelled as an arena: the store `inner` is the single
  authority, the heap and the map hold ids.
* The `waiting`/`free` containers are `std::collections::HashMap`s whose value
  iteration order depends on the ambient per-instance hasher state; that order
  is exposed as explicit reorder parameters `ρr`/`ρs` on the routing step.
-/

namespace Awt

/-- `core::time::Duration`, modelled as a count of nanoseconds. -/
abbrev Duration := Nat

/-- `request::Status` — the request lifecycle states. -/
inductive Status where
  | pending
  | enqueued
  | abandoned
  | answered
deriving DecidableEq, Repr

/-- `Attribute`: a named skill tag with an optional level. -/
structure Attribute where
  name : String
  level : Option Nat
deriving DecidableEq, Repr

/-- `Client`: the immutable arrival descriptor. -/
structure Client where
  required_attributes : List Attribute
  handle_time : Duration
  clean_up_time : Duration
  abandon_time : Duration
deriving DecidableEq, Repr

/-- `Client::default()`: handle 5 min, abandon 30 s, no clean-up. -/
def Client.default : Client :=
  { required_attributes := []
    handle_time := 300 * 1000000000
    clean_up_time := 0
    abandon_time := 30 * 1000000000 }

/-- `Request`: the dynamic per-contact entity. -/
structure Request where
  id : Nat
  required_attributes : List Attribute
  start : Duration
  abandon_ticks : Duration
  handle_ticks : Duration
  established : Option Duration
  endTime : Option Duration
  status : Status
  source : Client
deriving DecidableEq, Repr

/-- `Request::new`: a fresh pending request. -/
def Request.new (id : Nat) (start abandon_ticks handle_ticks : Duration)
    (required_attributes : List Attribute) (source : Client) : Request :=
  { id, required_attributes, start, abandon_ticks, handle_ticks
    established := none, endTime := none, status := .pending, source }

/-- `Request::enqueue`: asserts `tick ≥ start`, sets status to `Enqueued`. -/
def Request.enqueue (r : Request) (tick : Duration) : Option Request :=
  if r.start ≤ tick then some { r with status := .enqueued } else none

/-- `Request::tick_wait`: no-op `false` when not enqueued; asserts
`tick ≥ start`; abandons (setting `end`) when the deadline has passed. -/
def Request.tick_wait (r : Request) (tick : Duration) : Option (Request × Bool) :=
  if r.status ≠ Status.enqueued then some (r, false)
  else if tick < r.start then none
  else if r.abandon_ticks ≤ tick then
    some ({ r with status := .abandoned, endTime := some tick }, false)
  else some (r, true)

/-- `Request::handle`: asserts enqueued and `tick ≥ start`; answers the
request and returns the server release time `tick + handle_ticks`. -/
def Request.handle (r : Request) (tick : Duration) : Option (Request × Duration) :=
  if r.status = Status.enqueued ∧ r.start ≤ tick then
    some ({ r with established := some tick
                   endTime := some (tick + r.handle_ticks)
                   status := .answered },
          tick + r.handle_ticks)
  else none

/-- `Request::wait_time`: `established.or(end).map(|t| t - start)`. -/
def Request.wait_time (r : Request) : Option Duration :=
  (r.established.or r.endTime).map (fun t => t - r.start)

/-- `Request::handle_time`: `end - established`, only when answered.
(The source `expect`s `established` to be set on an answered request.) -/
def Request.handle_time (r : Request) : Option Duration :=
  if r.status = Status.answered then
    match r.established with
    | some e => r.endTime.map (fun t => t - e)
    | none => none
  else none

/-- `routing::RequestData` — the routing snapshot of a waiting request. -/
structure RequestData where
  id : Nat
  start : Duration
  required_attributes : List Attribute
deriving DecidableEq, Repr

/-- `RequestData::from(&Request)`. -/
def RequestData.fromRequest (r : Request) : RequestData :=
  { id := r.id, start := r.start, required_attributes := r.required_attributes }

/-- `Server`: a capacity unit. -/
structure Server where
  id : Nat
  attributes : List Attribute
deriving DecidableEq, Repr

/-- `QueueableServer`: a server together with the tick it is next free at. -/
structure QueueableServer where
  server : Server
  tick : Duration
deriving DecidableEq, Repr

/-- `QueueableServer::new`: free from tick 0. -/
def QueueableServer.new (server : Server) : QueueableServer :=
  { server, tick := 0 }

/-- `routing::ServerData` — the routing snapshot of a free server. -/
structure ServerData where
  id : Nat
  attributes : List Attribute
deriving DecidableEq, Repr

/-- `ServerData::from(&Server)`. -/
def ServerData.fromServer (s : Server) : ServerData :=
  { id := s.id, attributes := s.attributes }

/-- `route_requests` (awt-simulation/src/routing/mod.rs): iterate the request
snapshots in order; for each, `pop` the last free-server snapshot; emit the
pair; once the server vector is empty nothing further is emitted. -/
def route_requests : List RequestData → List ServerData → List (Nat × Nat)
  | [], _ => []
  | req :: reqs, servers =>
    match servers.getLast? with
    | none => []
    | some srv => (req.id, srv.id) :: route_requests reqs servers.dropLast

/-- Minimum of a list, modelling the peek of the `binary_heap_plus` min-heap. -/
def listMin? : List Duration → Option Duration
  | [] => none
  | d :: ds =>
    match listMin? ds with
    | none => some d
    | some m => some (min d m)

/-- `request::Queue` (awt-simulation/src/request/queue.rs).
`inner` is the arena of all requests in push order; `pendingIds` are the ids
held by the `enqueued` min-heap; `waitingIds` are the keys of the `waiting`
hash map (stored in insertion order — the hash map's own iteration order is
abstracted by the routing reorder parameter). -/
structure RequestQueue where
  inner : List Request
  pendingIds : List Nat
  waitingIds : List Nat
deriving DecidableEq, Repr

/-- `request::Queue::default()`. -/
def RequestQueue.empty : RequestQueue := ⟨[], [], []⟩

/-- Dereference an id through the arena (an `Rc` deref in the source). -/
def RequestQueue.lookup (q : RequestQueue) (id : Nat) : Option Request :=
  q.inner.find? (fun r => r.id = id)

/-- Write back a mutation of the request with the given id. -/
def RequestQueue.update (q : RequestQueue) (id : Nat) (r' : Request) : RequestQueue :=
  { q with inner := q.inner.map (fun r => if r.id = id then r' else r) }

/-- `Queue::push`: append to `inner` only; the heap is filled by `init`. -/
def RequestQueue.push (q : RequestQueue) (r : Request) : RequestQueue :=
  { q with inner := q.inner ++ [r] }

/-- `Queue::init`: every request enters the pending heap. -/
def RequestQueue.init (q : RequestQueue) : RequestQueue :=
  { q with pendingIds := q.inner.map (fun r => r.id) }

/-- The `start` of the request an id refers to (heap ordering key). -/
def RequestQueue.startOf (q : RequestQueue) (id : Nat) : Duration :=
  match q.lookup id with
  | some r => r.start
  | none => 0

/-- One iteration of the abandon sweep: `tick_wait` the waiting request and
write the result back. -/
def RequestQueue.tqStep (tick : Duration) (acc : RequestQueue) (id : Nat) :
    Option RequestQueue :=
  match acc.lookup id with
  | some r => do
      let rb ← r.tick_wait tick
      pure (acc.update id rb.1)
  | none => pure acc

/-- `Queue::tick_queued` — the abandon sweep: `tick_wait` every waiting
request, then retain only the ones still enqueued. -/
def RequestQueue.tick_queued (q : RequestQueue) (tick : Duration) : Option RequestQueue := do
  let q' ← q.waitingIds.foldlM (RequestQueue.tqStep tick) q
  pure { q' with waitingIds := q'.waitingIds.filter (fun id =>
    match q'.lookup id with
    | some r => r.status = Status.enqueued
    | none => false) }

/-- One iteration of the release sweep: pop a reached pending request,
`enqueue` it and insert it into the waiting map (fatal if the heap entry has
no backing request). -/
def RequestQueue.trStep (tick : Duration) (acc : RequestQueue) (id : Nat) :
    Option RequestQueue :=
  match acc.lookup id with
  | some r => do
      let r' ← r.enqueue tick
      pure { acc.update id r' with
             waitingIds := (acc.update id r').waitingIds ++ [id] }
  | none => none

/-- `Queue::tick_release_to_queue` — the release sweep: pop every pending
request whose `start` has been reached, `enqueue` it and insert it into the
waiting map. -/
def RequestQueue.tick_release (q : RequestQueue) (tick : Duration) : Option RequestQueue := do
  let rel := q.pendingIds.filter (fun id => q.startOf id ≤ tick)
  let rest := q.pendingIds.filter (fun id => ¬ q.startOf id ≤ tick)
  let q' ← rel.foldlM (RequestQueue.trStep tick) q
  pure { q' with pendingIds := rest }

/-- `Queue::tick`: abandons first, then releases. -/
def RequestQueue.tick (q : RequestQueue) (tick : Duration) : Option RequestQueue := do
  let q' ← q.tick_queued tick
  q'.tick_release tick

/-- `Queue::next_tick`: the heap peek — minimum `start` among pending. -/
def RequestQueue.next_tick (q : RequestQueue) : Option Duration :=
  listMin? (q.pendingIds.map q.startOf)

/-- `Queue::has_waiting`. -/
def RequestQueue.has_waiting (q : RequestQueue) : Bool :=
  !q.waitingIds.isEmpty

/-- `Queue::routing_data`: the snapshots held in the waiting map. The
snapshot fields (`id`, `start`, `required_attributes`) never change after a
request is constructed, so they are recomputed from the arena. -/
def RequestQueue.routing_data (q : RequestQueue) : List RequestData :=
  q.waitingIds.filterMap (fun id => (q.lookup id).map RequestData.fromRequest)

/-- `Queue::handle_request`: fatal if the id is not waiting; calls
`Request::handle` and returns the release tick. The request stays in the
waiting map. -/
def RequestQueue.handle_request (q : RequestQueue) (id : Nat) (tick : Duration) :
    Option (RequestQueue × Duration) :=
  if q.waitingIds.contains id then
    match q.lookup id with
    | some r => do
        let (r', rel) ← r.handle tick
        pure (q.update id r', rel)
    | none => none
  else none

/-- `server::Queue` (awt-simulation/src/server/queue.rs). `inner` is the
arena of all servers; `busyIds` the keys in the `enqueued` heap (ordered by
`QueueableServer.tick`); `freeIds` the keys of the `waiting` hash map. -/
structure ServerQueue where
  inner : List QueueableServer
  busyIds : List Nat
  freeIds : List Nat
deriving DecidableEq, Repr

/-- `server::Queue::default()`. -/
def ServerQueue.empty : ServerQueue := ⟨[], [], []⟩

/-- Dereference a server id through the arena. -/
def ServerQueue.lookup (q : ServerQueue) (id : Nat) : Option QueueableServer :=
  q.inner.find? (fun s => s.server.id = id)

/-- `Queue::push`. -/
def ServerQueue.push (q : ServerQueue) (s : QueueableServer) : ServerQueue :=
  { q with inner := q.inner ++ [s] }

/-- `Queue::init`: every server becomes free. -/
def ServerQueue.init (q : ServerQueue) : ServerQueue :=
  { q with freeIds := q.inner.map (fun s => s.server.id) }

/-- The tick a busy server becomes available at (heap ordering key). -/
def ServerQueue.availOf (q : ServerQueue) (id : Nat) : Duration :=
  match q.lookup id with
  | some s => s.tick
  | none => 0

/-- `Queue::tick`: pop every busy server whose release tick has been reached
into the free map. -/
def ServerQueue.tick (q : ServerQueue) (tick : Duration) : ServerQueue :=
  { q with
    busyIds := q.busyIds.filter (fun id => ¬ q.availOf id ≤ tick)
    freeIds := q.freeIds ++ q.busyIds.filter (fun id => q.availOf id ≤ tick) }

/-- `Queue::next_tick`: the heap peek — soonest release among busy. -/
def ServerQueue.next_tick (q : ServerQueue) : Option Duration :=
  listMin? (q.busyIds.map q.availOf)

/-- `Queue::routing_data`. -/
def ServerQueue.routing_data (q : ServerQueue) : List ServerData :=
  q.freeIds.filterMap (fun id => (q.lookup id).map (fun s => ServerData.fromServer s.server))

/-- `Queue::enqueue`: fatal if the id is not free; marks the server busy
until `until_`. -/
def ServerQueue.enqueue (q : ServerQueue) (id : Nat) (until_ : Duration) :
    Option ServerQueue :=
  if q.freeIds.contains id then
    some { inner := q.inner.map (fun s =>
             if s.server.id = id then { s with tick := until_ } else s)
           busyIds := q.busyIds ++ [id]
           freeIds := q.freeIds.filter (fun x => ¬ x = id) }
  else none

/-- `Simulation` (awt-simulation/src/lib.rs). The `rng` box is supplied at
`enable` as the stream of sampled start durations; the `statistics` field is
handled separately by the metrics aggregator below. `currentTick` models the
source field `tick`. -/
structure Simulation where
  start : Duration
  currentTick : Duration
  tick_size : Duration
  endT : Duration
  running : Bool
  clients : List Client
  request_queue : RequestQueue
  server_queue : ServerQueue
  nextRequestId : Nat
deriving DecidableEq, Repr

/-- `Simulation::new`. -/
def Simulation.new (endT tick_size : Duration) : Simulation :=
  { start := 0, currentTick := 0, tick_size, endT, running := false
    clients := [], request_queue := RequestQueue.empty
    server_queue := ServerQueue.empty, nextRequestId := 0 }

/-- `Simulation::add_server`: errors with `AlreadyRunning` when enabled. -/
def Simulation.add_server (s : Simulation) (server : Server) : Option Simulation :=
  if s.running then none
  else some { s with server_queue := s.server_queue.push (QueueableServer.new server) }

/-- `Simulation::add_client`: errors with `AlreadyRunning` when enabled. -/
def Simulation.add_client (s : Simulation) (c : Client) : Option Simulation :=
  if s.running then none
  else some { s with clients := s.clients ++ [c] }

/-- `Simulation::generate_requests`: one request per client; `start` is
sampled from the rng (`gen_range(start..=end)`, modelled as the stream of
sampled durations), `abandon_ticks = start + abandon_time`, `handle_ticks`
copied; ids come from the monotonic counter. -/
def Simulation.generate_requests (rng : Nat → Duration) (s : Simulation) : Simulation :=
  let reqs := s.clients.enum.map (fun ic =>
    Request.new (s.nextRequestId + ic.1) (rng ic.1) (rng ic.1 + ic.2.abandon_time)
      ic.2.handle_time ic.2.required_attributes ic.2)
  { s with request_queue := reqs.foldl RequestQueue.push s.request_queue
           nextRequestId := s.nextRequestId + s.clients.length }

/-- `Simulation::enable`: errors if already running; materializes the
requests and initializes both queues. -/
def Simulation.enable (rng : Nat → Duration) (s : Simulation) : Option Simulation :=
  if s.running then none
  else
    let s₁ := { s with running := true }
    let s₂ := s₁.generate_requests rng
    some { s₂ with server_queue := s₂.server_queue.init
                   request_queue := s₂.request_queue.init }

/-- The body of the routing loop: handle the routed request at the current
tick and enqueue the routed server until the returned release tick. -/
def Simulation.routeStep (st : Simulation) (p : Nat × Nat) : Option Simulation := do
  let (rq, release_tick) ← st.request_queue.handle_request p.1 st.currentTick
  let sq ← st.server_queue.enqueue p.2 release_tick
  pure { st with request_queue := rq, server_queue := sq }

/-- `Simulation::do_routing`: skipped when either routing-data side is
empty; otherwise every routed pair is handled and the server is enqueued
until the returned release tick. `ρr`/`ρs` expose the hash-map value
iteration order of the waiting/free maps. -/
def Simulation.do_routing (ρr : List RequestData → List RequestData)
    (ρs : List ServerData → List ServerData) (s : Simulation) : Option Simulation :=
  let request_data := ρr s.request_queue.routing_data
  let server_data := ρs s.server_queue.routing_data
  if request_data.isEmpty || server_data.isEmpty then some s
  else
    (route_requests request_data server_data).foldlM Simulation.routeStep s

/-- `Simulation::increment_tick`: advance by `tick_size` while anyone is
waiting, else jump to the next event (or `end`); clamp at `end` and stop. -/
def Simulation.increment_tick (s : Simulation) : Simulation :=
  let t :=
    if s.request_queue.has_waiting then s.currentTick + s.tick_size
    else
      match s.request_queue.next_tick, s.server_queue.next_tick with
      | some t, some u => if t ≤ u then t else u
      | some t, none => t
      | none, some u => u
      | none, none => s.endT
  if s.endT ≤ t then { s with currentTick := s.endT, running := false }
  else { s with currentTick := t }

/-- The queue-release and routing phase of `Simulation::tick` (steps 2–4). -/
def Simulation.routePhase (ρr : List RequestData → List RequestData)
    (ρs : List ServerData → List ServerData) (s : Simulation) : Option Simulation := do
  let rq ← s.request_queue.tick s.currentTick
  let s₁ := { s with request_queue := rq
                     server_queue := s.server_queue.tick s.currentTick }
  s₁.do_routing ρr ρs

/-- `Simulation::tick`: returns `false` immediately when not running; else
queue ticks, routing, time advance, and returns the running flag. -/
def Simulation.tick (ρr : List RequestData → List RequestData)
    (ρs : List ServerData → List ServerData) (s : Simulation) :
    Option (Simulation × Bool) :=
  if s.running then do
    let s₁ ← s.routePhase ρr ρs
    let s₂ := s₁.increment_tick
    some (s₂, s₂.running)
  else some (s, false)

/-- Drive `tick` until it returns `false` (the `while sim.tick() {}` loop),
with explicit fuel. -/
def Simulation.run (ρr : List RequestData → List RequestData)
    (ρs : List ServerData → List ServerData) :
    Nat → Simulation → Option Simulation
  | 0, s => some s
  | fuel + 1, s => do
    let (s', cont) ← s.tick ρr ρs
    if cont then s'.run ρr ρs fuel else some s'

/-- `request::Data` — the per-request outcome record consumed by metrics. -/
structure RequestOutcome where
  id : Nat
  status : Status
  wait_time : Option Duration
  handle_time : Option Duration
deriving DecidableEq, Repr

/-- The outcome projection of a request. -/
def Request.outcome (r : Request) : RequestOutcome :=
  { id := r.id, status := r.status
    wait_time := r.wait_time, handle_time := r.handle_time }

/-- `Queue::requests` followed by the outcome projection: the flat sequence
handed to the metric aggregator once the run has stopped. -/
def Simulation.request_outcomes (s : Simulation) : List RequestOutcome :=
  s.request_queue.inner.map Request.outcome

/-! ## Metrics (awt-metrics) -/

/-- `value::MeanDuration`: `(sum: Duration, count: u32)`. -/
structure MeanDuration where
  sum : Duration
  count : Nat
deriving DecidableEq, Repr

/-- `MeanDuration::report`. -/
def MeanDuration.report (m : MeanDuration) (duration : Duration) : MeanDuration :=
  { sum := m.sum + duration, count := m.count + 1 }

/-- The displayed mean `sum / count` (`Duration` division, nanosecond
truncation; the source panics at `count = 0`, where the model yields 0). -/
def MeanDuration.mean (m : MeanDuration) : Duration :=
  m.sum / m.count

/-- `value::Count`. -/
structure Count where
  count : Nat
deriving DecidableEq, Repr

/-- `Count::report`. -/
def Count.report (m : Count) : Count :=
  { count := m.count + 1 }

/-- `value::Percent`: `(sum: f64, count: f64)`. The source only ever adds
`1f64` to either field, and targets are exact configuration constants, so the
fields are modelled as exact rationals. -/
structure Percent where
  sum : ℚ
  count : ℚ
deriving DecidableEq, Repr

/-- `Percent::report`. -/
def Percent.report (m : Percent) (in_range : Bool) : Percent :=
  { sum := if in_range then m.sum + 1 else m.sum, count := m.count + 1 }

/-- The displayed ratio `sum / count`. -/
def Percent.ratio (m : Percent) : ℚ :=
  m.sum / m.count

/-- `value::Value` (also the `Target` type alias). -/
inductive Value where
  | meanDuration (m : MeanDuration)
  | count (c : Count)
  | percent (p : Percent)
deriving DecidableEq, Repr

/-- `Value`'s `PartialEq`: `MeanDuration` compares by displayed mean,
`Percent` componentwise, `Count` by count; mixed kinds are unequal. -/
def Value.beq : Value → Value → Bool
  | .meanDuration a, .meanDuration b => a.mean = b.mean
  | .count a, .count b => a.count = b.count
  | .percent a, .percent b => a.sum = b.sum ∧ a.count = b.count
  | _, _ => false

/-- `Value`'s `PartialOrd` restricted to `≤` on matching kinds:
`MeanDuration` by mean, `Count` by count, `Percent` by ratio. -/
def Value.le : Value → Value → Bool
  | .meanDuration a, .meanDuration b => a.mean ≤ b.mean
  | .count a, .count b => a.count ≤ b.count
  | .percent a, .percent b => a.ratio ≤ b.ratio
  | _, _ => false

/-- `Target::mean_duration`. -/
def Target.mean_duration (d : Duration) : Value :=
  .meanDuration { sum := d, count := 1 }

/-- `Target::count`. -/
def Target.countOf (n : Nat) : Value :=
  .count { count := n }

/-- `Target::percent`. -/
def Target.percent (q : ℚ) : Value :=
  .percent { sum := q, count := 1 }

/-- `target::TargetCondition`. -/
inductive TargetCondition where
  | lessOrEqual
  | greaterOrEqual
  | equal
deriving DecidableEq, Repr

/-- `MetricType` (awt-metrics/src/lib.rs). -/
inductive MetricType where
  | serviceLevel (window : Duration)
  | averageWorkTime
  | averageSpeedAnswer
  | averageTimeToAbandon
  | abandonRate
  | averageTimeInQueue
  | utilisationTime
  | answerCount
deriving DecidableEq, Repr

/-- The metric types taking a `MeanDuration` target. -/
def MetricType.isMean : MetricType → Bool
  | .averageWorkTime | .averageSpeedAnswer
  | .averageTimeInQueue | .averageTimeToAbandon => true
  | _ => false

/-- `Metric` (awt-metrics/src/lib.rs). -/
structure Metric where
  metric_type : MetricType
  value : Value
  target : Value
  target_condition : TargetCondition
deriving DecidableEq, Repr

/-- `Metric::with_target`: pairs each metric type with its required target
kind and comparator selector; mismatches error with `BadTarget`. -/
def Metric.with_target (metric_type : MetricType) (target : Value) : Option Metric :=
  match target with
  | .meanDuration _ =>
    if metric_type.isMean then
      some { metric_type, value := .meanDuration ⟨0, 0⟩, target
             target_condition := .lessOrEqual }
    else none
  | .percent _ =>
    match metric_type with
    | .utilisationTime | .serviceLevel _ =>
      some { metric_type, value := .percent ⟨0, 0⟩, target
             target_condition := .greaterOrEqual }
    | .abandonRate =>
      some { metric_type, value := .percent ⟨0, 0⟩, target
             target_condition := .lessOrEqual }
    | _ => none
  | .count _ =>
    match metric_type with
    | .answerCount =>
      some { metric_type, value := .count ⟨0⟩, target
             target_condition := .equal }
    | _ => none

/-- `Metric::on_target` (awt-metrics/src/lib.rs lines 142–148): compares
value to target only under the `Equal` condition; any other condition
returns `true` unconditionally. -/
def Metric.on_target (m : Metric) : Bool :=
  match m.target_condition with
  | .equal => Value.beq m.value m.target
  | _ => true

/-- `Metric::report` / the aggregator's `report` (awt-metrics): fold one
outcome record into a metric, filtering by status per metric type.
`UtilisationTime` is `todo!()` in the source — modelled as `none`. -/
def Metric.report (m : Metric) (r : RequestOutcome) : Option Metric :=
  match m.metric_type, r.status, m.value with
  | .serviceLevel ticks, .answered, .percent p =>
    some (match r.wait_time with
          | some tick => { m with value := .percent (p.report (tick ≤ ticks)) }
          | none => m)
  | .averageWorkTime, .answered, .meanDuration v =>
    some (match r.handle_time with
          | some tick => { m with value := .meanDuration (v.report tick) }
          | none => m)
  | .averageSpeedAnswer, .answered, .meanDuration v =>
    some (match r.wait_time with
          | some tick => { m with value := .meanDuration (v.report tick) }
          | none => m)
  | .averageTimeToAbandon, .abandoned, .meanDuration v =>
    some (match r.wait_time with
          | some tick => { m with value := .meanDuration (v.report tick) }
          | none => m)
  | .abandonRate, _, .percent p =>
    some { m with value := .percent (p.report (r.status = .abandoned)) }
  | .averageTimeInQueue, _, .meanDuration v =>
    some (match r.wait_time with
          | some tick => { m with value := .meanDuration (v.report tick) }
          | none => m)
  | .answerCount, .answered, .count c =>
    some { m with value := .count c.report }
  | .utilisationTime, _, _ => none
  | _, _, _ => some m

/-- The inner loop of `calculate`: report one outcome into every metric. -/
def reportAll (r : RequestOutcome) : List Metric → Option (List Metric)
  | [] => some []
  | m :: ms => do
    let m' ← m.report r
    let ms' ← reportAll r ms
    pure (m' :: ms')

/-- `Aggregator::calculate` / `Statistics::calculate`: fold every outcome
into every metric (the outer loop runs over outcomes). -/
def Aggregator.calculate (metrics : List Metric) (outcomes : List RequestOutcome) :
    Option (List Metric) :=
  outcomes.foldlM (fun acc r => reportAll r acc) metrics

/-! ## Helper lemmas -/

lemma map_fst_zip_sublist {α β : Type} (l₁ : List α) (l₂ : List β) :
    ((l₁.zip l₂).map Prod.fst).Sublist l₁ := by
  induction l₁ generalizing l₂ with
  | nil => simp
  | cons a l ih =>
    cases l₂ with
    | nil => simp
    | cons b l₂ => simpa using (ih l₂).cons₂ a

lemma map_snd_zip_sublist {α β : Type} (l₁ : List α) (l₂ : List β) :
    ((l₁.zip l₂).map Prod.snd).Sublist l₂ := by
  induction l₁ generalizing l₂ with
  | nil => simp
  | cons a l ih =>
    cases l₂ with
    | nil => simp
    | cons b l₂ => simpa using (ih l₂).cons₂ b

/-- The default routing policy is literally: zip the request ids, in input
order, with the server ids read back-to-front. -/
lemma route_requests_eq_zip (reqs : List RequestData) (srvs : List ServerData) :
    route_requests reqs srvs =
      (reqs.map (fun r => r.id)).zip ((srvs.map (fun s => s.id)).reverse) := by
  induction reqs generalizing srvs with
  | nil => simp [route_requests]
  | cons r rs ih =>
    rcases List.eq_nil_or_concat srvs with h | ⟨l, a, h⟩
    · subst h; simp [route_requests]
    · subst h
      simp [route_requests, List.getLast?_concat, List.dropLast_concat, ih]

/-! ## Claim theorems (C2, C4, C5) -/

/-- **C2.** `Request::tick_wait(now)` returns `false` with no effect when the
status is not `Enqueued`; when enqueued and `now ≥ start` it abandons
(setting `end := now`) and returns `false` exactly when
`now ≥ abandon_deadline`, and otherwise returns `true` unchanged; it fails
(panics) when enqueued and `now < start`. -/
theorem Request.tick_wait_spec (r : Request) (now : Duration) :
    (r.status ≠ Status.enqueued → r.tick_wait now = some (r, false)) ∧
    (r.status = Status.enqueued → now < r.start → r.tick_wait now = none) ∧
    (r.status = Status.enqueued → r.start ≤ now → r.abandon_ticks ≤ now →
      r.tick_wait now =
        some ({ r with status := .abandoned, endTime := some now }, false)) ∧
    (r.status = Status.enqueued → r.start ≤ now → now < r.abandon_ticks →
      r.tick_wait now = some (r, true)) := by
  refine ⟨fun h => ?_, fun h h2 => ?_, fun h h2 h3 => ?_, fun h h2 h3 => ?_⟩
  · simp [Request.tick_wait, h]
  · simp [Request.tick_wait, h, h2]
  · simp [Request.tick_wait, h, h3, not_lt.mpr h2]
  · simp [Request.tick_wait, h, not_lt.mpr h2, not_le.mpr h3]

/-- Witness for C2: a pending request is left unchanged, and an enqueued
request past its deadline abandons at the current tick. -/
theorem Request.tick_wait_spec_witness :
    (Request.new 0 5 15 50 [] Client.default).tick_wait 3 =
      some (Request.new 0 5 15 50 [] Client.default, false) ∧
    Request.tick_wait { Request.new 0 5 15 50 [] Client.default with
        status := Status.enqueued } 20 =
      some ({ Request.new 0 5 15 50 [] Client.default with
        status := .abandoned, endTime := some 20 }, false) :=
  ⟨(Request.tick_wait_spec _ 3).1 (by decide),
   (Request.tick_wait_spec _ 20).2.2.1 (by decide) (by decide) (by decide)⟩

/-- **C4.** Under pairwise-distinct input ids, `route_requests` emits each
request id and each server id at most once, every pair is drawn from the
inputs, and the default policy pairs the waiting snapshots in input order
with the last free-server snapshot popped each time, producing exactly
`min (|waiting|, |free|)` pairs. -/
theorem route_requests_spec (reqs : List RequestData) (srvs : List ServerData)
    (hr : (reqs.map (fun r => r.id)).Nodup)
    (hs : (srvs.map (fun s => s.id)).Nodup) :
    ((route_requests reqs srvs).map Prod.fst).Nodup ∧
    ((route_requests reqs srvs).map Prod.snd).Nodup ∧
    (∀ p ∈ route_requests reqs srvs,
      p.1 ∈ reqs.map (fun r => r.id) ∧ p.2 ∈ srvs.map (fun s => s.id)) ∧
    (route_requests reqs srvs).length = min reqs.length srvs.length ∧
    route_requests reqs srvs =
      (reqs.map (fun r => r.id)).zip ((srvs.map (fun s => s.id)).reverse) := by
  rw [route_requests_eq_zip]
  refine ⟨hr.sublist (map_fst_zip_sublist _ _),
          ((List.nodup_reverse).2 hs).sublist (map_snd_zip_sublist _ _),
          fun p hp => ?_, by simp, rfl⟩
  obtain ⟨a, b⟩ := p
  obtain ⟨h1, h2⟩ := List.of_mem_zip hp
  exact ⟨h1, (List.mem_reverse).1 h2⟩

/-- Witness for C4: two waiting requests, one free server — one pair,
request 0 with server 7. -/
theorem route_requests_spec_witness :
    (([⟨0, 0, []⟩, ⟨1, 0, []⟩] : List RequestData).map (fun r => r.id)).Nodup ∧
    (([⟨7, []⟩] : List ServerData).map (fun s => s.id)).Nodup ∧
    (route_requests [⟨0, 0, []⟩, ⟨1, 0, []⟩] [⟨7, []⟩]).length =
      min ([⟨0, 0, []⟩, ⟨1, 0, []⟩] : List RequestData).length
        ([⟨7, []⟩] : List ServerData).length :=
  ⟨by decide, by decide,
   (route_requests_spec [⟨0, 0, []⟩, ⟨1, 0, []⟩] [⟨7, []⟩]
      (by decide) (by decide)).2.2.2.1⟩

/-- Counterexample for C5 as stated: a never-enabled simulation's `tick()`
returns `false` while its current tick (0) differs from `end` (100). -/
theorem simulation_tick_false_counterexample :
    (Simulation.new 100 7).tick id id = some (Simulation.new 100 7, false) ∧
    (Simulation.new 100 7).running = false ∧
    ¬ (Simulation.new 100 7).currentTick = (Simulation.new 100 7).endT := by
  refine ⟨?_, rfl, by decide⟩
  rfl

/-! ## Claim theorems (C8, C9, C7) -/

/-- Counterexample for C8 as stated: a constructed `AverageWorkTime` metric
carries the `LessOrEqual` selector, yet after accumulating a mean of 10
against a target mean of 5 — where `value ≤ target` is false — `on_target`
still returns `true`. -/
theorem metric_on_target_counterexample :
    ((Metric.with_target .averageWorkTime (Target.mean_duration 5)).bind
        (fun m => m.report ⟨0, .answered, some 0, some 10⟩)).map
      (fun m => (m.target_condition, m.on_target, Value.le m.value m.target)) =
      some (TargetCondition.lessOrEqual, true, false) := by decide

/-- **C8 (amended).** `on_target` applies the comparison selected at
construction only for `AnswerCount` (the `Equal` selector), where it tests
`value = target`; every other successfully constructed metric reports
`on_target = true` regardless of its accumulated value. -/
theorem metric_on_target_amended (mt : MetricType) (t : Value) (m : Metric)
    (h : Metric.with_target mt t = some m) :
    (m.target_condition = TargetCondition.equal ↔ mt = MetricType.answerCount) ∧
    (∀ v : Value, mt = MetricType.answerCount →
      Metric.on_target { m with value := v } = Value.beq v m.target) ∧
    (∀ v : Value, mt ≠ MetricType.answerCount →
      Metric.on_target { m with value := v } = true) := by
  cases t <;> cases mt <;>
    simp_all [Metric.with_target, MetricType.isMean] <;>
    (subst h; simp [Metric.on_target])

/-- Witness for C8 (amended): an `AnswerCount` metric with value 2 against
target 3 compares by equality. -/
theorem metric_on_target_amended_witness :
    Metric.on_target { metric_type := MetricType.answerCount
                       value := Value.count ⟨2⟩
                       target := Target.countOf 3
                       target_condition := TargetCondition.equal } =
      Value.beq (Value.count ⟨2⟩) (Target.countOf 3) :=
  (metric_on_target_amended MetricType.answerCount (Target.countOf 3)
      { metric_type := .answerCount
        value := .count ⟨0⟩
        target := Target.countOf 3
        target_condition := .equal } (by decide)).2.1 (Value.count ⟨2⟩) rfl

/-- Counterexample for C9 as stated: construction accepts a
`UtilisationTime` metric with a percent target, but folding any outcome into
it hits `todo!()` (fails) in the aggregation loop. -/
theorem metric_report_counterexample :
    (Metric.with_target .utilisationTime (Target.percent (9 / 10))).isSome = true ∧
    (Metric.with_target .utilisationTime (Target.percent (9 / 10))).bind
        (fun m => Aggregator.calculate [m] [⟨0, .answered, some 0, some 10⟩]) =
      none := by
  constructor <;> decide

/-- `Metric::report` is total and type-preserving away from
`UtilisationTime`. -/
lemma Metric.report_total (m : Metric) (r : RequestOutcome)
    (h : m.metric_type ≠ MetricType.utilisationTime) :
    ∃ m', m.report r = some m' ∧ m'.metric_type = m.metric_type := by
  obtain ⟨mt, v, tg, tc⟩ := m
  obtain ⟨i, st, wt, ht⟩ := r
  cases mt <;> try (exact absurd rfl h)
  all_goals
    cases st <;> cases v <;>
      first
        | exact ⟨_, rfl, rfl⟩
        | (cases wt <;> exact ⟨_, rfl, rfl⟩)
        | (cases ht <;> exact ⟨_, rfl, rfl⟩)

/-- `Metric::report` on a `UtilisationTime` metric always panics. -/
lemma Metric.report_utilisation (m : Metric) (r : RequestOutcome)
    (h : m.metric_type = MetricType.utilisationTime) :
    m.report r = none := by
  obtain ⟨mt, v, tg, tc⟩ := m
  obtain ⟨i, st, wt, ht⟩ := r
  cases mt <;> simp_all
  cases st <;> cases v <;> rfl

/-- `reportAll` is total and type-preserving away from `UtilisationTime`. -/
lemma reportAll_total (r : RequestOutcome) (ms : List Metric)
    (h : ∀ m ∈ ms, m.metric_type ≠ MetricType.utilisationTime) :
    ∃ ms', reportAll r ms = some ms' ∧
      ∀ m' ∈ ms', m'.metric_type ≠ MetricType.utilisationTime := by
  induction ms with
  | nil => exact ⟨[], rfl, by simp⟩
  | cons a l ih =>
    obtain ⟨a', ha, hty⟩ := a.report_total r (h a (by simp))
    obtain ⟨l', hl, hl2⟩ := ih (fun m hm => h m (List.mem_cons_of_mem _ hm))
    refine ⟨a' :: l', ?_, ?_⟩
    · simp [reportAll, ha, hl]
    · intro m' hm'
      rcases List.mem_cons.1 hm' with h1 | h1
      · subst h1; rw [hty]; exact h a (by simp)
      · exact hl2 m' h1

/-- **C9 (amended).** Folding outcomes into a set of constructed metrics
completes without failing whenever no metric is of kind `UtilisationTime`;
but a `UtilisationTime` metric (which construction accepts with a percent
target) makes the aggregation loop fail on the first outcome. -/
theorem aggregator_calculate_amended :
    (∀ (ms : List Metric) (rs : List RequestOutcome),
      (∀ m ∈ ms, m.metric_type ≠ MetricType.utilisationTime) →
      ∃ ms', Aggregator.calculate ms rs = some ms') ∧
    (∀ (m : Metric) (r : RequestOutcome) (rs : List RequestOutcome),
      m.metric_type = MetricType.utilisationTime →
      Aggregator.calculate [m] (r :: rs) = none) := by
  constructor
  · intro ms rs
    induction rs generalizing ms with
    | nil => exact fun h => ⟨ms, rfl⟩
    | cons r rest ih =>
      intro h
      obtain ⟨ms1, hms1, h1⟩ := reportAll_total r ms h
      obtain ⟨ms', hms'⟩ := ih ms1 h1
      exact ⟨ms', by simpa [Aggregator.calculate, List.foldlM_cons, hms1]
        using hms'⟩
  · intro m r rs h
    have : reportAll r [m] = none := by
      simp [reportAll, Metric.report_utilisation m r h]
    simp [Aggregator.calculate, List.foldlM_cons, this]

/-- Witness for C9 (amended): an `AbandonRate` metric aggregates a single
outcome without failing. -/
theorem aggregator_calculate_amended_witness :
    ∃ ms', Aggregator.calculate
        [{ metric_type := MetricType.abandonRate
           value := Value.percent ⟨0, 0⟩
           target := Target.percent 0
           target_condition := TargetCondition.lessOrEqual }]
        [⟨0, Status.abandoned, some 5, none⟩] = some ms' :=
  aggregator_calculate_amended.1 _ _ (by decide)

/-- Folding `MeanDuration.report` adds the batch's sum and length. -/
lemma meanDuration_foldl (A : List Duration) (m : MeanDuration) :
    A.foldl MeanDuration.report m = ⟨m.sum + A.sum, m.count + A.length⟩ := by
  induction A generalizing m with
  | nil => simp
  | cons a A ih =>
    simp [List.foldl_cons, ih, MeanDuration.report, add_assoc, add_comm 1]

/-- Folding `Percent.report` adds the batch's hit count and length. -/
lemma percent_foldl (A : List Bool) (p : Percent) :
    A.foldl Percent.report p =
      ⟨p.sum + (A.count true : ℚ), p.count + (A.length : ℚ)⟩ := by
  induction A generalizing p with
  | nil => simp
  | cons a A ih =>
    cases a <;>
      simp [List.foldl_cons, ih, Percent.report, List.count_cons, add_assoc,
        add_comm (1 : ℚ)]

/-- Folding `Count.report` adds the batch's length. -/
lemma count_foldl (A : List Unit) (c : Count) :
    A.foldl (fun acc _ => acc.report) c = ⟨c.count + A.length⟩ := by
  induction A generalizing c with
  | nil => simp
  | cons a A ih =>
    rw [List.foldl_cons, ih]
    simp only [Count.report, Count.mk.injEq, List.length_cons]
    omega

/-- Counterexample for C7 as stated: re-aggregating the same single answered
outcome into an `AnswerCount` metric changes its value from 1 to 2. -/
theorem aggregate_idempotent_counterexample :
    ((Metric.with_target .answerCount (Target.countOf 0)).bind (fun m =>
      (Aggregator.calculate [m] [⟨0, .answered, some 0, some 10⟩]).bind (fun ms1 =>
        (Aggregator.calculate ms1 [⟨0, .answered, some 0, some 10⟩]).map (fun ms2 =>
          (ms1.map Metric.value, ms2.map Metric.value))))) =
      some ([Value.count ⟨1⟩], [Value.count ⟨2⟩]) ∧
    ([Value.count ⟨1⟩] : List Value) ≠ [Value.count ⟨2⟩] := by
  constructor <;> decide

/-- **C7 (amended).** Aggregation is additive over any split into two
batches, for every accumulator kind. Re-aggregating the same batch is not
the identity: it adds the batch again, so the `(sum, count)` pairs double;
the displayed mean of `MeanDuration` and ratio of `Percent` are preserved
by the doubling, while `Count`'s value grows by the batch length. -/
theorem aggregate_additive_amended :
    (∀ (ms : List Metric) (A B : List RequestOutcome),
      Aggregator.calculate ms (A ++ B) =
        (Aggregator.calculate ms A).bind (fun x => Aggregator.calculate x B)) ∧
    (∀ A : List Duration,
      A.foldl MeanDuration.report (A.foldl MeanDuration.report ⟨0, 0⟩) =
        ⟨2 * A.sum, 2 * A.length⟩ ∧
      (A.foldl MeanDuration.report (A.foldl MeanDuration.report ⟨0, 0⟩)).mean =
        (A.foldl MeanDuration.report ⟨0, 0⟩).mean) ∧
    (∀ A : List Bool,
      A.foldl Percent.report (A.foldl Percent.report ⟨0, 0⟩) =
        ⟨2 * (A.count true : ℚ), 2 * (A.length : ℚ)⟩ ∧
      (A.foldl Percent.report (A.foldl Percent.report ⟨0, 0⟩)).ratio =
        (A.foldl Percent.report ⟨0, 0⟩).ratio) ∧
    (∀ A : List Unit,
      (A.foldl (fun acc _ => acc.report) ⟨0⟩ : Count).count = A.length ∧
      (A.foldl (fun acc _ => acc.report)
        (A.foldl (fun acc _ => acc.report) (⟨0⟩ : Count))).count = 2 * A.length) := by
  refine ⟨fun ms A B => ?_, fun A => ?_, fun A => ?_, fun A => ?_⟩
  · unfold Aggregator.calculate
    induction A generalizing ms with
    | nil => simp
    | cons a A ih =>
      simp only [List.cons_append, List.foldlM_cons]
      cases reportAll a ms <;> simp [ih]
  · constructor
    · simp [meanDuration_foldl, two_mul]
    · simp only [meanDuration_foldl, MeanDuration.mean, zero_add]
      rw [← two_mul A.sum, ← two_mul A.length,
        Nat.mul_div_mul_left _ _ (by norm_num : (0 : ℕ) < 2)]
  · constructor
    · simp [percent_foldl, two_mul]
    · simp only [percent_foldl, Percent.ratio, zero_add]
      rw [← two_mul ((A.count true : ℚ)), ← two_mul ((A.length : ℚ)),
        mul_div_mul_left _ _ (two_ne_zero (α := ℚ))]
  · constructor
    · simp [count_foldl]
    · simp [count_foldl, two_mul]

/-! ## Claim theorems (C6) -/

/-- `Config` (awt-simulation/src/config.rs): the static inputs of a run.
The seeded rng it carries is modelled as the stream of sampled start
durations it produces, supplied at `enable`. -/
structure Config where
  endT : Duration
  tick_size : Duration
  clients : List Client
  servers : List Server

/-- `Simulation::from_config`: add the servers, then the clients. -/
def Simulation.from_config (c : Config) : Simulation :=
  let s := Simulation.new c.endT c.tick_size
  let s := c.servers.foldl
    (fun st v => { st with server_queue := st.server_queue.push (QueueableServer.new v) }) s
  { s with clients := s.clients ++ c.clients }

/-- The shared build of the C6 counterexample: one simulation value — one
config (two identical clients, one server) and one rng stream (both starts
at 0), enabled. Both runs below start from this same value. -/
def c6Base : Option Simulation :=
  (Simulation.from_config
    { endT := 100, tick_size := 10
      clients := [{ required_attributes := [], handle_time := 50,
                    clean_up_time := 0, abandon_time := 5 },
                  { required_attributes := [], handle_time := 50,
                    clean_up_time := 0, abandon_time := 5 }]
      servers := [⟨7, []⟩] }).enable (fun _ => 0)

/-- Counterexample for C6 as stated: the identical enabled simulation,
driven once with one waiting-map iteration order and once with the reversed
order (both orders arise from `HashMap::values()`, which is not a function
of the config or the rng seed), produces different outcome sequences. -/
theorem determinism_counterexample :
    (c6Base.bind (Simulation.run id id 50)).map Simulation.request_outcomes ≠
      (c6Base.bind (Simulation.run List.reverse List.reverse 50)).map
        Simulation.request_outcomes := by decide

/-- **C6 (amended).** Determinism holds once the hash-map value-iteration
orders are fixed along with the config and the rng source: two simulations
built from the same config and the same rng stream, ticked with the same
iteration orders, produce identical outcome sequences and identical metric
values. -/
theorem determinism_amended (c : Config) (rng : Nat → Duration)
    (ρr : List RequestData → List RequestData)
    (ρs : List ServerData → List ServerData) (fuel : Nat) (ms : List Metric) :
    (((Simulation.from_config c).enable rng).bind
        (Simulation.run ρr ρs fuel)).map Simulation.request_outcomes =
      (((Simulation.from_config c).enable rng).bind
        (Simulation.run ρr ρs fuel)).map Simulation.request_outcomes ∧
    ((((Simulation.from_config c).enable rng).bind
        (Simulation.run ρr ρs fuel)).map Simulation.request_outcomes).map
      (Aggregator.calculate ms) =
      ((((Simulation.from_config c).enable rng).bind
        (Simulation.run ρr ρs fuel)).map Simulation.request_outcomes).map
      (Aggregator.calculate ms) :=
  ⟨rfl, rfl⟩

/-! ## Claim theorems (C1 and C5 amended) -/

/-- The time-advance target as the specification words it: step by
`tick_size` while anyone is waiting, else the minimum of the next
pending-request start and the next server-free time when either is present,
else `end`. -/
def specAdvanceTarget (s : Simulation) : Duration :=
  if s.request_queue.has_waiting then s.currentTick + s.tick_size
  else
    match s.request_queue.next_tick, s.server_queue.next_tick with
    | some a, some c => min a c
    | some a, none => a
    | none, some c => c
    | none, none => s.endT

/-- `increment_tick` advances exactly to the spec's target, clamping at
`end` and stopping the run when the target reaches it. -/
lemma increment_tick_spec (s : Simulation) :
    (s.endT ≤ specAdvanceTarget s →
      s.increment_tick = { s with currentTick := s.endT, running := false }) ∧
    (specAdvanceTarget s < s.endT →
      s.increment_tick = { s with currentTick := specAdvanceTarget s }) := by
  have hEq : (if s.request_queue.has_waiting then s.currentTick + s.tick_size
      else match s.request_queue.next_tick, s.server_queue.next_tick with
           | some t, some u => if t ≤ u then t else u
           | some t, none => t
           | none, some u => u
           | none, none => s.endT) = specAdvanceTarget s := by
    unfold specAdvanceTarget
    cases hw : s.request_queue.has_waiting
    · simp only [hw, Bool.false_eq_true, if_false]
      cases s.request_queue.next_tick <;> cases s.server_queue.next_tick <;>
        simp [min_def]
    · simp [hw]
  constructor <;> intro h <;> simp only [Simulation.increment_tick, hEq]
  · rw [if_pos h]
  · rw [if_neg (not_le.mpr h)]

/-- `routeStep` only touches the two queues. -/
lemma routeStep_fields (st st' : Simulation) (p : Nat × Nat)
    (h : st.routeStep p = some st') :
    st'.currentTick = st.currentTick ∧ st'.endT = st.endT ∧
    st'.tick_size = st.tick_size ∧ st'.running = st.running := by
  unfold Simulation.routeStep at h
  cases hh : st.request_queue.handle_request p.1 st.currentTick with
  | none => simp [hh] at h
  | some rqrel =>
    obtain ⟨rq, rel⟩ := rqrel
    simp only [hh, Option.bind_eq_bind, Option.some_bind] at h
    cases he : st.server_queue.enqueue p.2 rel with
    | none => simp [he] at h
    | some sq =>
      simp only [he, Option.bind_eq_bind, Option.some_bind, Option.pure_def,
        Option.some.injEq] at h
      subst h
      exact ⟨rfl, rfl, rfl, rfl⟩

/-- The routing fold only touches the two queues. -/
lemma foldlM_routeStep_fields :
    ∀ (l : List (Nat × Nat)) (s s' : Simulation),
      l.foldlM Simulation.routeStep s = some s' →
      s'.currentTick = s.currentTick ∧ s'.endT = s.endT ∧
      s'.tick_size = s.tick_size ∧ s'.running = s.running := by
  intro l
  induction l with
  | nil =>
    intro s s' h
    simp only [List.foldlM_nil, Option.pure_def, Option.some.injEq] at h
    subst h; exact ⟨rfl, rfl, rfl, rfl⟩
  | cons p l ih =>
    intro s s' h
    simp only [List.foldlM_cons, Option.bind_eq_bind] at h
    cases hstep : s.routeStep p with
    | none => simp [hstep] at h
    | some s₁ =>
      simp only [hstep, Option.some_bind] at h
      obtain ⟨h1, h2, h3, h4⟩ := routeStep_fields s s₁ p hstep
      obtain ⟨g1, g2, g3, g4⟩ := ih s₁ s' h
      exact ⟨g1.trans h1, g2.trans h2, g3.trans h3, g4.trans h4⟩

/-- `do_routing` only touches the two queues. -/
lemma do_routing_fields (ρr : List RequestData → List RequestData)
    (ρs : List ServerData → List ServerData) (s s' : Simulation)
    (h : s.do_routing ρr ρs = some s') :
    s'.currentTick = s.currentTick ∧ s'.endT = s.endT ∧
    s'.tick_size = s.tick_size ∧ s'.running = s.running := by
  simp only [Simulation.do_routing] at h
  split at h
  · simp only [Option.some.injEq] at h
    subst h; exact ⟨rfl, rfl, rfl, rfl⟩
  · exact foldlM_routeStep_fields _ s s' h

/-- The queue-and-routing phase preserves the clock, the bounds and the
running flag. -/
lemma routePhase_fields (ρr : List RequestData → List RequestData)
    (ρs : List ServerData → List ServerData) (s s' : Simulation)
    (h : s.routePhase ρr ρs = some s') :
    s'.currentTick = s.currentTick ∧ s'.endT = s.endT ∧
    s'.tick_size = s.tick_size ∧ s'.running = s.running := by
  unfold Simulation.routePhase at h
  cases hrq : s.request_queue.tick s.currentTick with
  | none => simp [hrq] at h
  | some rq =>
    simp only [hrq, Option.bind_eq_bind, Option.some_bind] at h
    have h2 := do_routing_fields ρr ρs _ s' h
    exact h2

/-- A running simulation's `tick` is the routing phase followed by
`increment_tick`, returning the updated running flag. -/
lemma tick_decomp (ρr : List RequestData → List RequestData)
    (ρs : List ServerData → List ServerData) (s s' : Simulation) (b : Bool)
    (hrun : s.running = true) (h : s.tick ρr ρs = some (s', b)) :
    ∃ m, s.routePhase ρr ρs = some m ∧ s' = m.increment_tick ∧ b = s'.running := by
  unfold Simulation.tick at h
  rw [if_pos hrun] at h
  cases hm : s.routePhase ρr ρs with
  | none => simp [hm] at h
  | some m =>
    simp only [hm, Option.bind_eq_bind, Option.some_bind, Option.some.injEq,
      Prod.mk.injEq] at h
    obtain ⟨h1, h2⟩ := h
    subst h1
    exact ⟨m, rfl, rfl, h2.symm⟩

/-- **C1.** On every tick of a running simulation, after the routing phase
the clock advances as follows: by exactly `tick_size` when the request queue
has a waiting request, else to the minimum of the next pending-request start
and the next server-free time (to `end` when neither exists); whenever the
target reaches `end`, the tick is clamped to `end` and `running` becomes
false, and otherwise the tick becomes the target with the simulation still
running. -/
theorem simulation_tick_advance (ρr : List RequestData → List RequestData)
    (ρs : List ServerData → List ServerData) (s s' : Simulation) (b : Bool)
    (hrun : s.running = true) (h : s.tick ρr ρs = some (s', b)) :
    ∃ m, s.routePhase ρr ρs = some m ∧
      m.currentTick = s.currentTick ∧ m.endT = s.endT ∧
      m.tick_size = s.tick_size ∧ m.running = true ∧
      s' = m.increment_tick ∧ b = s'.running ∧ s'.endT = s.endT ∧
      (s.endT ≤ specAdvanceTarget m →
        s'.currentTick = s.endT ∧ s'.running = false) ∧
      (specAdvanceTarget m < s.endT →
        s'.currentTick = specAdvanceTarget m ∧ s'.running = true) := by
  obtain ⟨m, hm, hs', hb⟩ := tick_decomp ρr ρs s s' b hrun h
  obtain ⟨f1, f2, f3, f4⟩ := routePhase_fields ρr ρs s m hm
  obtain ⟨hclamp, hadv⟩ := increment_tick_spec m
  refine ⟨m, hm, f1, f2, f3, f4.trans hrun, hs', hb, ?_, ?_, ?_⟩
  · rcases le_or_lt m.endT (specAdvanceTarget m) with hc | hc
    · rw [hs', hclamp hc]; exact f2
    · rw [hs', hadv hc]; exact f2
  · intro hc
    rw [f2] at hclamp
    rw [hs', hclamp hc]
    exact ⟨rfl, rfl⟩
  · intro hc
    rw [f2] at hadv
    rw [hs', hadv hc]
    exact ⟨rfl, f4.trans hrun⟩

/-- Witness for C1: a running simulation with nothing pending and nothing
waiting jumps straight to `end` and stops. -/
theorem simulation_tick_advance_witness :
    ∃ m, Simulation.routePhase id id
        { Simulation.new 100 7 with running := true } = some m ∧
      m.currentTick = ({ Simulation.new 100 7 with running := true } : Simulation).currentTick ∧
      m.endT = ({ Simulation.new 100 7 with running := true } : Simulation).endT ∧
      m.tick_size = ({ Simulation.new 100 7 with running := true } : Simulation).tick_size ∧
      m.running = true ∧
      ({ Simulation.new 100 7 with currentTick := 100 } : Simulation) = m.increment_tick ∧
      false = ({ Simulation.new 100 7 with currentTick := 100 } : Simulation).running ∧
      ({ Simulation.new 100 7 with currentTick := 100 } : Simulation).endT =
        ({ Simulation.new 100 7 with running := true } : Simulation).endT ∧
      (({ Simulation.new 100 7 with running := true } : Simulation).endT ≤ specAdvanceTarget m →
        ({ Simulation.new 100 7 with currentTick := 100 } : Simulation).currentTick =
          ({ Simulation.new 100 7 with running := true } : Simulation).endT ∧
        ({ Simulation.new 100 7 with currentTick := 100 } : Simulation).running = false) ∧
      (specAdvanceTarget m < ({ Simulation.new 100 7 with running := true } : Simulation).endT →
        ({ Simulation.new 100 7 with currentTick := 100 } : Simulation).currentTick =
          specAdvanceTarget m ∧
        ({ Simulation.new 100 7 with currentTick := 100 } : Simulation).running = true) :=
  simulation_tick_advance id id { Simulation.new 100 7 with running := true }
    { Simulation.new 100 7 with currentTick := 100 } false rfl (by decide)

/-- **C5 (amended).** Whenever `tick()` on a *running* simulation returns
false, the current tick equals `end` and `running` is false. (As stated
over all reachable states the claim fails: a never-enabled simulation's
`tick()` also returns false, with the clock still at 0 — see the
counterexample.) -/
theorem simulation_tick_false_amended (ρr : List RequestData → List RequestData)
    (ρs : List ServerData → List ServerData) (s s' : Simulation)
    (hrun : s.running = true) (h : s.tick ρr ρs = some (s', false)) :
    s'.currentTick = s'.endT ∧ s'.running = false := by
  obtain ⟨m, hm, f1, f2, f3, f4, hs', hb, hend, hclamp, hadv⟩ :=
    simulation_tick_advance ρr ρs s s' false hrun h
  rcases le_or_lt s.endT (specAdvanceTarget m) with hc | hc
  · obtain ⟨h1, h2⟩ := hclamp hc
    exact ⟨h1.trans hend.symm, h2⟩
  · obtain ⟨h1, h2⟩ := hadv hc
    exact absurd (hb.trans h2) (by simp)

/-- Witness for C5 (amended): the same one-tick run to completion. -/
theorem simulation_tick_false_amended_witness :
    ({ Simulation.new 100 7 with currentTick := 100 } : Simulation).currentTick =
      ({ Simulation.new 100 7 with currentTick := 100 } : Simulation).endT ∧
    ({ Simulation.new 100 7 with currentTick := 100 } : Simulation).running = false :=
  simulation_tick_false_amended id id { Simulation.new 100 7 with running := true }
    { Simulation.new 100 7 with currentTick := 100 } rfl (by decide)

/-! ## Claim theorems (C3) -/

/-- `tick_wait` never changes a request's id or start. -/
lemma Request.tick_wait_id (r : Request) (t : Duration) (r' : Request) (f : Bool)
    (h : r.tick_wait t = some (r', f)) : r'.id = r.id ∧ r'.start = r.start := by
  unfold Request.tick_wait at h
  split_ifs at h with g1 g2 g3
  · injection h with h1
    injection h1 with ha hb
    subst ha
    exact ⟨rfl, rfl⟩
  · injection h with h1
    injection h1 with ha hb
    rw [← ha]
    exact ⟨rfl, rfl⟩
  · injection h with h1
    injection h1 with ha hb
    subst ha
    exact ⟨rfl, rfl⟩

/-- If `tick_wait` succeeds and its result is still enqueued, the request
was unchanged and its start has been reached. -/
lemma Request.tick_wait_enqueued (r : Request) (t : Duration) (r' : Request) (f : Bool)
    (h : r.tick_wait t = some (r', f)) (h2 : r'.status = Status.enqueued) :
    r' = r ∧ r.start ≤ t := by
  unfold Request.tick_wait at h
  split_ifs at h with g1 g2 g3
  · injection h with h1
    injection h1 with ha hb
    subst ha
    exact absurd h2 g1
  · injection h with h1
    injection h1 with ha hb
    rw [← ha] at h2
    simp at h2
  · injection h with h1
    injection h1 with ha hb
    subst ha
    exact ⟨rfl, not_lt.mp g2⟩

/-- A successful arena lookup returns a stored request bearing the id. -/
lemma RequestQueue.lookup_mem (q : RequestQueue) (id : Nat) (r : Request)
    (h : q.lookup id = some r) : r ∈ q.inner ∧ r.id = id := by
  unfold RequestQueue.lookup at h
  have h2 := List.find?_some h
  simp only [decide_eq_true_eq] at h2
  exact ⟨List.mem_of_find?_eq_some h, h2⟩

lemma list_find_update_self (l : List Request) (id : Nat) (r' : Request)
    (hid : r'.id = id) :
    (l.map (fun r => if r.id = id then r' else r)).find? (fun r => r.id = id) =
      (l.find? (fun r => r.id = id)).map (fun _ => r') := by
  induction l with
  | nil => rfl
  | cons a l ih =>
    simp only [List.map_cons, List.find?_cons]
    by_cases ha : a.id = id
    · simp only [if_pos ha, decide_eq_true hid, decide_eq_true ha]
      rfl
    · simp only [if_neg ha, decide_eq_false ha]
      exact ih

lemma list_find_update_ne (l : List Request) (id id2 : Nat) (r' : Request)
    (hne : id2 ≠ id) (hid : r'.id = id) :
    (l.map (fun r => if r.id = id then r' else r)).find? (fun r => r.id = id2) =
      l.find? (fun r => r.id = id2) := by
  induction l with
  | nil => rfl
  | cons a l ih =>
    simp only [List.map_cons, List.find?_cons]
    by_cases ha : a.id = id
    · have h1 : ¬ r'.id = id2 := by rw [hid]; exact fun hh => hne hh.symm
      have h2 : ¬ a.id = id2 := by rw [ha]; exact fun hh => hne hh.symm
      simp only [if_pos ha, decide_eq_false h1, decide_eq_false h2]
      exact ih
    · simp only [if_neg ha]
      by_cases hb : a.id = id2
      · simp only [decide_eq_true hb]
      · simp only [decide_eq_false hb]
        exact ih

/-- Arena lookup after a write-back: the written id reads the new value,
every other id is untouched. -/
lemma RequestQueue.lookup_update (q : RequestQueue) (id : Nat) (r' : Request)
    (hid : r'.id = id) (id2 : Nat) :
    (q.update id r').lookup id2 =
      if id2 = id then (q.lookup id2).map (fun _ => r') else q.lookup id2 := by
  unfold RequestQueue.lookup RequestQueue.update
  by_cases h : id2 = id
  · subst h
    simp only [if_pos rfl]
    exact list_find_update_self q.inner id2 r' hid
  · simp only [if_neg h]
    exact list_find_update_ne q.inner id id2 r' h hid

/-- The id is waiting and refers (through the arena) to an enqueued request
whose start has been reached. -/
def StrongAt (q : RequestQueue) (t : Duration) (id : Nat) : Prop :=
  ∃ r, q.lookup id = some r ∧ r.status = Status.enqueued ∧ r.start ≤ t

/-- If the id's request is enqueued, its start has been reached. -/
def SafeAt (q : RequestQueue) (t : Duration) (id : Nat) : Prop :=
  ∀ r, q.lookup id = some r → r.status = Status.enqueued → r.start ≤ t

/-- One abandon-sweep iteration leaves every safe id safe and makes the
processed id safe; the heap and map keys are untouched. -/
lemma tqStep_safe (t : Duration) (acc acc' : RequestQueue) (id₀ : Nat)
    (h : RequestQueue.tqStep t acc id₀ = some acc') :
    (∀ id, SafeAt acc t id → SafeAt acc' t id) ∧ SafeAt acc' t id₀ ∧
    acc'.pendingIds = acc.pendingIds ∧ acc'.waitingIds = acc.waitingIds := by
  unfold RequestQueue.tqStep at h
  cases hlk : acc.lookup id₀ with
  | none =>
    rw [hlk] at h
    simp only [Option.pure_def, Option.some.injEq] at h
    subst h
    exact ⟨fun id hs => hs, fun r hr => absurd hr (by simp [hlk]), rfl, rfl⟩
  | some r =>
    rw [hlk] at h
    cases htw : r.tick_wait t with
    | none => simp [htw] at h
    | some rb =>
      obtain ⟨r', f⟩ := rb
      simp only [htw, Option.bind_eq_bind, Option.some_bind, Option.pure_def,
        Option.some.injEq] at h
      subst h
      have hid : r'.id = id₀ :=
        (Request.tick_wait_id r t r' f htw).1.trans (acc.lookup_mem id₀ r hlk).2
      have hsafe : ∀ x, some r' = some x → x.status = Status.enqueued → x.start ≤ t := by
        intro x hx hst
        have hrx : r' = x := Option.some.inj hx
        subst hrx
        obtain ⟨he, hle⟩ := Request.tick_wait_enqueued r t _ f htw hst
        rw [he]; exact hle
      refine ⟨?_, ?_, rfl, rfl⟩
      · intro id hs x hx hst
        rw [acc.lookup_update id₀ r' hid id] at hx
        by_cases hcase : id = id₀
        · rw [if_pos hcase] at hx
          cases hlk2 : acc.lookup id with
          | none => rw [hlk2] at hx; exact absurd hx (by simp)
          | some a =>
            rw [hlk2] at hx
            simp only [Option.map_some'] at hx
            exact hsafe x hx hst
        · rw [if_neg hcase] at hx
          exact hs x hx hst
      · intro x hx hst
        rw [acc.lookup_update id₀ r' hid id₀, if_pos rfl, hlk] at hx
        simp only [Option.map_some'] at hx
        exact hsafe x hx hst

/-- The abandon-sweep fold: every processed id ends safe; safety is
preserved; the heap and map keys are untouched. -/
lemma foldlM_tqStep (t : Duration) :
    ∀ (ids : List Nat) (q q' : RequestQueue),
      List.foldlM (RequestQueue.tqStep t) q ids = some q' →
      (∀ id, SafeAt q t id → SafeAt q' t id) ∧ (∀ id ∈ ids, SafeAt q' t id) ∧
      q'.pendingIds = q.pendingIds ∧ q'.waitingIds = q.waitingIds := by
  intro ids
  induction ids with
  | nil =>
    intro q q' h
    simp only [List.foldlM_nil, Option.pure_def, Option.some.injEq] at h
    subst h
    exact ⟨fun id hs => hs, by simp, rfl, rfl⟩
  | cons id₀ ids ih =>
    intro q q' h
    simp only [List.foldlM_cons, Option.bind_eq_bind] at h
    cases hstep : RequestQueue.tqStep t q id₀ with
    | none => simp [hstep] at h
    | some q₁ =>
      simp only [hstep, Option.some_bind] at h
      obtain ⟨p1, p2, p3, p4⟩ := tqStep_safe t q q₁ id₀ hstep
      obtain ⟨g1, g2, g3, g4⟩ := ih q₁ q' h
      refine ⟨fun id hs => g1 id (p1 id hs), ?_, g3.trans p3, g4.trans p4⟩
      intro id hid
      rcases List.mem_cons.1 hid with rfl | hmem
      · exact g1 id p2
      · exact g2 id hmem

/-- After the abandon sweep every waiting id refers to an enqueued request
whose start has been reached; the pending heap is untouched. -/
lemma tick_queued_strong (q : RequestQueue) (t : Duration) (q' : RequestQueue)
    (h : q.tick_queued t = some q') :
    (∀ id ∈ q'.waitingIds, StrongAt q' t id) ∧ q'.pendingIds = q.pendingIds := by
  unfold RequestQueue.tick_queued at h
  cases hf : List.foldlM (RequestQueue.tqStep t) q q.waitingIds with
  | none => simp [hf] at h
  | some q₁ =>
    simp only [hf, Option.bind_eq_bind, Option.some_bind, Option.pure_def,
      Option.some.injEq] at h
    obtain ⟨g1, g2, g3, g4⟩ := foldlM_tqStep t q.waitingIds q q₁ hf
    subst h
    refine ⟨?_, g3⟩
    intro id hid
    have hmem := List.mem_filter.1 hid
    have hcond := hmem.2
    cases hlk : q₁.lookup id with
    | none => rw [hlk] at hcond; simp at hcond
    | some r =>
      rw [hlk] at hcond
      have hst : r.status = Status.enqueued := by
        simpa using hcond
      have hsafe : SafeAt q₁ t id := g2 id (g4 ▸ hmem.1)
      exact ⟨r, hlk, hst, hsafe r hlk hst⟩

/-- One release-sweep iteration: strength is preserved, the processed id
becomes strong and is appended to the waiting keys; the heap is untouched. -/
lemma trStep_strong (t : Duration) (acc acc' : RequestQueue) (id₀ : Nat)
    (h : RequestQueue.trStep t acc id₀ = some acc') :
    (∀ id, StrongAt acc t id → StrongAt acc' t id) ∧ StrongAt acc' t id₀ ∧
    acc'.pendingIds = acc.pendingIds ∧
    acc'.waitingIds = acc.waitingIds ++ [id₀] := by
  unfold RequestQueue.trStep at h
  cases hlk : acc.lookup id₀ with
  | none => simp [hlk] at h
  | some r =>
    rw [hlk] at h
    cases he : r.enqueue t with
    | none => simp [he] at h
    | some r' =>
      simp only [he, Option.bind_eq_bind, Option.some_bind, Option.pure_def,
        Option.some.injEq] at h
      subst h
      have henq : r' = { r with status := .enqueued } ∧ r.start ≤ t := by
        unfold Request.enqueue at he
        split_ifs at he with hle
        injection he with h1
        exact ⟨h1.symm, hle⟩
      obtain ⟨hr', hle⟩ := henq
      have hid : r'.id = id₀ := by
        rw [hr']; exact (acc.lookup_mem id₀ r hlk).2
      have hstr : ∀ x, some r' = some x →
          x.status = Status.enqueued ∧ x.start ≤ t := by
        intro x hx
        obtain rfl : r' = x := Option.some.inj hx
        rw [hr']
        exact ⟨rfl, hle⟩
      refine ⟨?_, ?_, rfl, rfl⟩
      · intro id hs
        obtain ⟨x, hxl, hxs, hxt⟩ := hs
        by_cases hcase : id = id₀
        · refine ⟨r', ?_, (hstr r' rfl).1, (hstr r' rfl).2⟩
          show (acc.update id₀ r').lookup id = some r'
          rw [acc.lookup_update id₀ r' hid id, if_pos hcase, hxl]
          rfl
        · refine ⟨x, ?_, hxs, hxt⟩
          show (acc.update id₀ r').lookup id = some x
          rw [acc.lookup_update id₀ r' hid id, if_neg hcase]
          exact hxl
      · refine ⟨r', ?_, (hstr r' rfl).1, (hstr r' rfl).2⟩
        show (acc.update id₀ r').lookup id₀ = some r'
        rw [acc.lookup_update id₀ r' hid id₀, if_pos rfl, hlk]
        rfl

/-- The release-sweep fold keeps every waiting id strong. -/
lemma foldlM_trStep (t : Duration) :
    ∀ (rel : List Nat) (q q' : RequestQueue),
      List.foldlM (RequestQueue.trStep t) q rel = some q' →
      (∀ id ∈ q.waitingIds, StrongAt q t id) →
      (∀ id ∈ q'.waitingIds, StrongAt q' t id) ∧
      q'.pendingIds = q.pendingIds := by
  intro rel
  induction rel with
  | nil =>
    intro q q' h h0
    simp only [List.foldlM_nil, Option.pure_def, Option.some.injEq] at h
    subst h
    exact ⟨h0, rfl⟩
  | cons id₀ rel ih =>
    intro q q' h h0
    simp only [List.foldlM_cons, Option.bind_eq_bind] at h
    cases hstep : RequestQueue.trStep t q id₀ with
    | none => simp [hstep] at h
    | some q₁ =>
      simp only [hstep, Option.some_bind] at h
      obtain ⟨p1, p2, p3, p4⟩ := trStep_strong t q q₁ id₀ hstep
      have h1 : ∀ id ∈ q₁.waitingIds, StrongAt q₁ t id := by
        intro id hid
        rw [p4] at hid
        rcases List.mem_append.1 hid with hmem | hmem
        · exact p1 id (h0 id hmem)
        · obtain rfl : id = id₀ := by simpa using hmem
          exact p2
      obtain ⟨g1, g2⟩ := ih q₁ q' h h1
      exact ⟨g1, g2.trans p3⟩

/-- After `Queue::tick` every waiting id refers, through the arena, to an
enqueued request whose start has been reached. -/
lemma RequestQueue.tick_strong (q : RequestQueue) (t : Duration) (q' : RequestQueue)
    (h : q.tick t = some q') :
    ∀ id ∈ q'.waitingIds, StrongAt q' t id := by
  unfold RequestQueue.tick at h
  cases hq1 : q.tick_queued t with
  | none => simp [hq1] at h
  | some q₁ =>
    simp only [hq1, Option.bind_eq_bind, Option.some_bind] at h
    obtain ⟨hstr, _⟩ := tick_queued_strong q t q₁ hq1
    unfold RequestQueue.tick_release at h
    cases hf : List.foldlM (RequestQueue.trStep t)
        q₁ (q₁.pendingIds.filter (fun id => q₁.startOf id ≤ t)) with
    | none => simp [hf] at h
    | some q₂ =>
      simp only [hf, Option.bind_eq_bind, Option.some_bind, Option.pure_def,
        Option.some.injEq] at h
      obtain ⟨g1, _⟩ := foldlM_trStep t _ q₁ q₂ hf hstr
      subst h
      intro id hid
      obtain ⟨r, hr, hs, ht'⟩ := g1 id hid
      exact ⟨r, hr, hs, ht'⟩

/-- Every routing snapshot's id is a waiting key. -/
lemma routing_data_mem (q : RequestQueue) (d : RequestData)
    (hd : d ∈ q.routing_data) : d.id ∈ q.waitingIds := by
  unfold RequestQueue.routing_data at hd
  obtain ⟨id, hid, hmap⟩ := List.mem_filterMap.1 hd
  cases hlk : q.lookup id with
  | none => rw [hlk] at hmap; simp at hmap
  | some r =>
    rw [hlk] at hmap
    simp only [Option.map_some', Option.some.injEq] at hmap
    have : d.id = id := by
      rw [← hmap]
      exact (q.lookup_mem id r hlk).2
    rw [this]
    exact hid

/-- A waiting, strong id is handled successfully, yielding
`t + handle_ticks`. -/
lemma handle_request_succeeds (q : RequestQueue) (t : Duration) (id : Nat)
    (hmem : id ∈ q.waitingIds) (hstrong : StrongAt q t id) :
    ∃ r q'', q.lookup id = some r ∧
      q.handle_request id t = some (q'', t + r.handle_ticks) := by
  obtain ⟨r, hlk, hst, hle⟩ := hstrong
  refine ⟨r, q.update id { r with established := some t
                                  endTime := some (t + r.handle_ticks)
                                  status := .answered }, hlk, ?_⟩
  have hc : q.waitingIds.contains id = true := List.elem_iff.2 hmem
  unfold RequestQueue.handle_request
  rw [hc]
  simp only [if_true]
  rw [hlk]
  dsimp only
  unfold Request.handle
  rw [if_pos ⟨hst, hle⟩]
  rfl

/-- **C3.** `Request::handle(now)` on an enqueued request whose start has
been reached answers it — `established := now`, `end := now +
handle_duration`, status `Answered` — and returns `now + handle_duration`;
consequently every request id emitted by the router against the routing
snapshots of a just-ticked queue is handled successfully at the current
tick, yielding `t + handle_duration`. -/
theorem request_handle_router_spec :
    (∀ (r : Request) (now : Duration),
      r.status = Status.enqueued → r.start ≤ now →
      r.handle now = some ({ r with established := some now
                                    endTime := some (now + r.handle_ticks)
                                    status := .answered },
        now + r.handle_ticks)) ∧
    (∀ (q q' : RequestQueue) (t : Duration)
      (ρr : List RequestData → List RequestData) (srvs : List ServerData)
      (rid sid : Nat),
      (∀ l, ∀ x ∈ ρr l, x ∈ l) →
      q.tick t = some q' →
      (rid, sid) ∈ route_requests (ρr q'.routing_data) srvs →
      ∃ r q'', q'.lookup rid = some r ∧
        q'.handle_request rid t = some (q'', t + r.handle_ticks)) := by
  constructor
  · intro r now h1 h2
    unfold Request.handle
    rw [if_pos ⟨h1, h2⟩]
  · intro q q' t ρr srvs rid sid hρ htick hmem
    rw [route_requests_eq_zip] at hmem
    have hfst := (List.of_mem_zip hmem).1
    obtain ⟨d, hd, hdid⟩ := List.mem_map.1 hfst
    have hdmem : d ∈ q'.routing_data := hρ _ d hd
    have hwait : rid ∈ q'.waitingIds := by
      rw [← hdid]; exact routing_data_mem q' d hdmem
    exact handle_request_succeeds q' t rid hwait
      (q.tick_strong t q' htick rid hwait)

/-- Witness for C3: a queue holding one pending request released at tick 0
and routed to server 7 is handled, yielding `0 + 50`. -/
theorem request_handle_router_spec_witness :
    ∃ r q'', RequestQueue.lookup
        ⟨[{ Request.new 0 0 5 50 [] Client.default with status := Status.enqueued }],
          [], [0]⟩ 0 = some r ∧
      RequestQueue.handle_request
        ⟨[{ Request.new 0 0 5 50 [] Client.default with status := Status.enqueued }],
          [], [0]⟩ 0 0 = some (q'', 0 + r.handle_ticks) :=
  request_handle_router_spec.2
    ⟨[Request.new 0 0 5 50 [] Client.default], [0], []⟩
    ⟨[{ Request.new 0 0 5 50 [] Client.default with status := Status.enqueued }],
      [], [0]⟩
    0 id [⟨7, []⟩] 0 7 (fun l x hx => hx) (by decide) (by decide)

/-! ## Claim theorems (C10) -/

/-- The states a single simulation run can reach: construction, setup calls,
one `enable` (the driver's contract — `init` is called exactly once, so
`enable` starts from an empty request arena), and any number of `tick`s,
each under an arbitrary hash-map iteration order. -/
inductive Reachable : Simulation → Prop where
  | new : ∀ endT tick_size, Reachable (Simulation.new endT tick_size)
  | add_client : ∀ {s c s'}, Reachable s →
      Simulation.add_client s c = some s' → Reachable s'
  | add_server : ∀ {s v s'}, Reachable s →
      Simulation.add_server s v = some s' → Reachable s'
  | enable : ∀ {s s'} (rng : Nat → Duration), Reachable s →
      s.request_queue.inner = [] →
      Simulation.enable rng s = some s' → Reachable s'
  | step : ∀ {s s' b} (ρr : List RequestData → List RequestData)
      (ρs : List ServerData → List ServerData), Reachable s →
      Simulation.tick ρr ρs s = some (s', b) → Reachable s'

/-- The request lifecycle facts C10 needs, relative to the pending heap:
heap membership coincides with status `Pending`; pending requests carry no
`established`/`end`; abandoned requests ended at or past their deadline. -/
def GoodReq (pend : List Nat) (r : Request) : Prop :=
  (r.id ∈ pend ↔ r.status = Status.pending) ∧
  (r.status = Status.pending → r.established = none ∧ r.endTime = none) ∧
  (r.status = Status.abandoned → ∃ t, r.endTime = some t ∧ r.abandon_ticks ≤ t)

/-- The request-queue invariant: distinct ids, and every stored request is
`GoodReq` for the current heap. -/
def InvQ (q : RequestQueue) : Prop :=
  (q.inner.map (fun r => r.id)).Nodup ∧ ∀ r ∈ q.inner, GoodReq q.pendingIds r

/-- Members of a written-back arena: the written value or an untouched
request of a different id. -/
lemma mem_update (q : RequestQueue) (id : Nat) (r' x : Request)
    (hx : x ∈ (q.update id r').inner) :
    x = r' ∨ (x ∈ q.inner ∧ ¬ x.id = id) := by
  unfold RequestQueue.update at hx
  obtain ⟨a, ha, hax⟩ := List.mem_map.1 hx
  by_cases hcase : a.id = id
  · rw [if_pos hcase] at hax
    exact Or.inl hax.symm
  · rw [if_neg hcase] at hax
    subst hax
    exact Or.inr ⟨ha, hcase⟩

/-- A write-back of a value bearing the written id leaves the id column of
the arena unchanged. -/
lemma ids_update (q : RequestQueue) (id : Nat) (r' : Request) (hid : r'.id = id) :
    ((q.update id r').inner.map (fun r => r.id)) = q.inner.map (fun r => r.id) := by
  unfold RequestQueue.update
  rw [List.map_map]
  apply List.map_congr_left
  intro a _
  by_cases hcase : a.id = id
  · simp [hcase, hid]
  · simp [hcase]

/-- With distinct ids, looking up a stored request's id finds it. -/
lemma find_eq_of_nodup (l : List Request) (hnd : (l.map (fun r => r.id)).Nodup)
    (y : Request) (hy : y ∈ l) :
    l.find? (fun r => r.id = y.id) = some y := by
  induction l with
  | nil => exact absurd hy (by simp)
  | cons a l ih =>
    rcases List.mem_cons.1 hy with rfl | hmem
    · simp [List.find?_cons]
    · have hnda : a.id ∉ l.map (fun r => r.id) := (List.nodup_cons.1 hnd).1
      have hne : ¬ a.id = y.id := by
        intro hcontra
        exact hnda (hcontra ▸ List.mem_map_of_mem _ hmem)
      simp only [List.find?_cons, decide_eq_false hne]
      exact ih (List.nodup_cons.1 hnd).2 hmem

/-- `tick_wait` carries `GoodReq` across the write-back (the heap is not
touched by the abandon sweep). -/
lemma tick_wait_good (pend : List Nat) (r : Request) (t : Duration)
    (r' : Request) (f : Bool) (hg : GoodReq pend r)
    (h : r.tick_wait t = some (r', f)) : GoodReq pend r' := by
  unfold Request.tick_wait at h
  split_ifs at h with g1 g2 g3
  · injection h with h1
    injection h1 with ha hb
    subst ha
    exact hg
  · injection h with h1
    injection h1 with ha hb
    subst ha
    obtain ⟨hiff, hpend, hab⟩ := hg
    have hne : ¬ r.status = Status.pending := by
      intro hcontra
      rw [hcontra] at g1
      exact g1 (by simp_all)
    refine ⟨?_, ?_, ?_⟩
    · constructor
      · intro hmem
        exact absurd (hiff.1 hmem) hne
      · intro hcontra
        simp at hcontra
    · intro hcontra
      simp at hcontra
    · intro _
      exact ⟨t, rfl, g3⟩
  · injection h with h1
    injection h1 with ha hb
    subst ha
    exact hg

/-- A state whose stored requests all satisfy `GoodReq` and whose enqueued
requests are never pending: the abandon-sweep step preserves `InvQ`. -/
lemma tqStep_inv (t : Duration) (acc acc' : RequestQueue) (id₀ : Nat)
    (h : RequestQueue.tqStep t acc id₀ = some acc') (hq : InvQ acc) : InvQ acc' := by
  unfold RequestQueue.tqStep at h
  cases hlk : acc.lookup id₀ with
  | none =>
    rw [hlk] at h
    simp only [Option.pure_def, Option.some.injEq] at h
    subst h
    exact hq
  | some r =>
    rw [hlk] at h
    cases htw : r.tick_wait t with
    | none => simp [htw] at h
    | some rb =>
      obtain ⟨r', f⟩ := rb
      simp only [htw, Option.bind_eq_bind, Option.some_bind, Option.pure_def,
        Option.some.injEq] at h
      subst h
      have hid : r'.id = id₀ :=
        (Request.tick_wait_id r t r' f htw).1.trans (acc.lookup_mem id₀ r hlk).2
      obtain ⟨hnd, hgood⟩ := hq
      refine ⟨by rw [ids_update acc id₀ r' hid]; exact hnd, ?_⟩
      intro x hx
      rcases mem_update acc id₀ r' x hx with rfl | ⟨hmem, _⟩
      · exact tick_wait_good _ r t x f
          (hgood r (acc.lookup_mem id₀ r hlk).1) htw
      · exact hgood x hmem

/-- The abandon-sweep fold preserves `InvQ`. -/
lemma foldlM_tqStep_inv (t : Duration) :
    ∀ (ids : List Nat) (q q' : RequestQueue),
      List.foldlM (RequestQueue.tqStep t) q ids = some q' → InvQ q → InvQ q' := by
  intro ids
  induction ids with
  | nil =>
    intro q q' h hq
    simp only [List.foldlM_nil, Option.pure_def, Option.some.injEq] at h
    subst h
    exact hq
  | cons id₀ ids ih =>
    intro q q' h hq
    simp only [List.foldlM_cons, Option.bind_eq_bind] at h
    cases hstep : RequestQueue.tqStep t q id₀ with
    | none => simp [hstep] at h
    | some q₁ =>
      simp only [hstep, Option.some_bind] at h
      exact ih q₁ q' h (tqStep_inv t q q₁ id₀ hstep hq)

/-- The abandon sweep preserves `InvQ` (the waiting-key filter does not
touch the arena or the heap). -/
lemma tick_queued_inv (q : RequestQueue) (t : Duration) (q' : RequestQueue)
    (h : q.tick_queued t = some q') (hq : InvQ q) : InvQ q' := by
  unfold RequestQueue.tick_queued at h
  cases hf : List.foldlM (RequestQueue.tqStep t) q q.waitingIds with
  | none => simp [hf] at h
  | some q₁ =>
    simp only [hf, Option.bind_eq_bind, Option.some_bind, Option.pure_def,
      Option.some.injEq] at h
    subst h
    exact foldlM_tqStep_inv t q.waitingIds q q₁ hf hq

/-- One release-sweep iteration, characterized for the invariant: ids and
heap untouched; every stored request is either untouched or an enqueued
rewrite of a reached request; requests bearing the processed id end up
enqueued, and already-enqueued id classes stay enqueued. -/
lemma trStep_inv (t : Duration) (acc acc' : RequestQueue) (id₀ : Nat)
    (h : RequestQueue.trStep t acc id₀ = some acc') :
    (acc'.inner.map (fun r => r.id) = acc.inner.map (fun r => r.id)) ∧
    acc'.pendingIds = acc.pendingIds ∧
    (∀ x ∈ acc'.inner, x ∈ acc.inner ∨
      ∃ y ∈ acc.inner, y.start ≤ t ∧ x = { y with status := Status.enqueued }) ∧
    (∀ S : List Nat,
      (∀ x ∈ acc.inner, x.id ∈ S → x.status = Status.enqueued) →
      ∀ x ∈ acc'.inner, x.id ∈ S → x.status = Status.enqueued) ∧
    (∀ x ∈ acc'.inner, x.id = id₀ → x.status = Status.enqueued) := by
  unfold RequestQueue.trStep at h
  cases hlk : acc.lookup id₀ with
  | none => simp [hlk] at h
  | some r =>
    rw [hlk] at h
    cases he : r.enqueue t with
    | none => simp [he] at h
    | some r' =>
      simp only [he, Option.bind_eq_bind, Option.some_bind, Option.pure_def,
        Option.some.injEq] at h
      subst h
      have henq : r' = { r with status := .enqueued } ∧ r.start ≤ t := by
        unfold Request.enqueue at he
        split_ifs at he with hle
        injection he with h1
        exact ⟨h1.symm, hle⟩
      obtain ⟨hr', hle⟩ := henq
      have hid : r'.id = id₀ := by
        rw [hr']; exact (acc.lookup_mem id₀ r hlk).2
      refine ⟨ids_update acc id₀ r' hid, rfl, ?_, ?_, ?_⟩
      · intro x hx
        rcases mem_update acc id₀ r' x hx with rfl | ⟨hmem, _⟩
        · exact Or.inr ⟨r, (acc.lookup_mem id₀ r hlk).1, hle, hr'⟩
        · exact Or.inl hmem
      · intro S hS x hx hxS
        rcases mem_update acc id₀ r' x hx with rfl | ⟨hmem, _⟩
        · rw [hr']
        · exact hS x hmem hxS
      · intro x hx hxid
        rcases mem_update acc id₀ r' x hx with rfl | ⟨_, hne⟩
        · rw [hr']
        · exact absurd hxid hne

/-- The release-sweep fold, characterized for the invariant. -/
lemma foldlM_trStep_inv (t : Duration) :
    ∀ (rel : List Nat) (q q' : RequestQueue),
      List.foldlM (RequestQueue.trStep t) q rel = some q' →
      (q'.inner.map (fun r => r.id) = q.inner.map (fun r => r.id)) ∧
      q'.pendingIds = q.pendingIds ∧
      (∀ x ∈ q'.inner, x ∈ q.inner ∨
        ∃ y ∈ q.inner, y.start ≤ t ∧ x = { y with status := Status.enqueued }) ∧
      (∀ S : List Nat,
        (∀ x ∈ q.inner, x.id ∈ S → x.status = Status.enqueued) →
        ∀ x ∈ q'.inner, x.id ∈ S → x.status = Status.enqueued) ∧
      (∀ x ∈ q'.inner, x.id ∈ rel → x.status = Status.enqueued) := by
  intro rel
  induction rel with
  | nil =>
    intro q q' h
    simp only [List.foldlM_nil, Option.pure_def, Option.some.injEq] at h
    subst h
    exact ⟨rfl, rfl, fun x hx => Or.inl hx, fun S hS => hS, by simp⟩
  | cons id₀ rel ih =>
    intro q q' h
    simp only [List.foldlM_cons, Option.bind_eq_bind] at h
    cases hstep : RequestQueue.trStep t q id₀ with
    | none => simp [hstep] at h
    | some q₁ =>
      simp only [hstep, Option.some_bind] at h
      obtain ⟨p1, p2, p3, p4, p5⟩ := trStep_inv t q q₁ id₀ hstep
      obtain ⟨g1, g2, g3, g4, g5⟩ := ih q₁ q' h
      refine ⟨g1.trans p1, g2.trans p2, ?_, ?_, ?_⟩
      · intro x hx
        rcases g3 x hx with hmem | ⟨y, hy, hyle, hyx⟩
        · exact p3 x hmem
        · rcases p3 y hy with hmem2 | ⟨z, hz, hzle, hzy⟩
          · exact Or.inr ⟨y, hmem2, hyle, hyx⟩
          · refine Or.inr ⟨z, hz, hzle, ?_⟩
            rw [hyx, hzy]
      · intro S hS
        exact g4 S (p4 S hS)
      · intro x hx hxrel
        rcases List.mem_cons.1 hxrel with hxid | hxid
        · exact g4 [id₀] (fun z hz hzid => p5 z hz (by simpa using hzid)) x hx
            (by simpa using hxid)
        · exact g5 x hx hxid

/-- An id in the heap lands in exactly one of the two release filters. -/
lemma pending_filter_split (q : RequestQueue) (t : Duration) (id : Nat)
    (hmem : id ∈ q.pendingIds) :
    id ∈ q.pendingIds.filter (fun i => q.startOf i ≤ t) ∨
    id ∈ q.pendingIds.filter (fun i => ¬ q.startOf i ≤ t) := by
  by_cases hc : q.startOf id ≤ t
  · exact Or.inl (List.mem_filter.2 ⟨hmem, by simpa using hc⟩)
  · exact Or.inr (List.mem_filter.2 ⟨hmem, by simpa using hc⟩)

/-- The release sweep preserves `InvQ`: released requests leave the heap
and become enqueued, unreleased requests stay pending in the heap. -/
lemma tick_release_inv (q : RequestQueue) (t : Duration) (q' : RequestQueue)
    (h : q.tick_release t = some q') (hq : InvQ q) : InvQ q' := by
  obtain ⟨hnd, hgood⟩ := hq
  unfold RequestQueue.tick_release at h
  cases hf : List.foldlM (RequestQueue.trStep t)
      q (q.pendingIds.filter (fun i => q.startOf i ≤ t)) with
  | none => simp [hf] at h
  | some q₂ =>
    simp only [hf, Option.bind_eq_bind, Option.some_bind, Option.pure_def,
      Option.some.injEq] at h
    obtain ⟨g1, g2, g3, g4, g5⟩ := foldlM_trStep_inv t _ q q₂ hf
    subst h
    refine ⟨by simpa using g1 ▸ hnd, ?_⟩
    intro x hx
    simp only at hx
    rcases g3 x hx with hmem | ⟨y, hy, hyle, hyx⟩
    · obtain ⟨hiff, hpend, hab⟩ := hgood x hmem
      refine ⟨⟨?_, ?_⟩, hpend, hab⟩
      · intro hrest
        exact hiff.1 (List.mem_filter.1 hrest).1
      · intro hpending
        rcases pending_filter_split q t x.id (hiff.2 hpending) with hrel | hrest
        · exact absurd (g5 x hx hrel) (by rw [hpending]; simp)
        · exact hrest
    · have hxid : x.id = y.id := by rw [hyx]
      have hxst : x.status = Status.enqueued := by rw [hyx]
      refine ⟨⟨?_, ?_⟩, ?_, ?_⟩
      · intro hrest
        have hyst : q.startOf y.id = y.start := by
          unfold RequestQueue.startOf RequestQueue.lookup
          rw [find_eq_of_nodup q.inner hnd y hy]
        have hcond := (List.mem_filter.1 hrest).2
        rw [hxid, hyst] at hcond
        exact absurd hyle (by simpa using hcond)
      · intro hpending
        exact absurd (hxst.symm.trans hpending) (by simp)
      · intro hpending
        exact absurd (hxst.symm.trans hpending) (by simp)
      · intro habs
        exact absurd (hxst.symm.trans habs) (by simp)

/-- `Queue::tick` preserves `InvQ`. -/
lemma RequestQueue.tick_inv (q : RequestQueue) (t : Duration) (q' : RequestQueue)
    (h : q.tick t = some q') (hq : InvQ q) : InvQ q' := by
  unfold RequestQueue.tick at h
  cases hq1 : q.tick_queued t with
  | none => simp [hq1] at h
  | some q₁ =>
    simp only [hq1, Option.bind_eq_bind, Option.some_bind] at h
    exact tick_release_inv q₁ t q' h (tick_queued_inv q t q₁ hq1 hq)

/-- `Queue::handle_request` preserves `InvQ`: the handled request was
enqueued, so it is outside the heap, and it is rewritten to `Answered`. -/
lemma handle_request_inv (q : RequestQueue) (id : Nat) (t : Duration)
    (q'' : RequestQueue) (rel : Duration)
    (h : q.handle_request id t = some (q'', rel)) (hq : InvQ q) : InvQ q'' := by
  unfold RequestQueue.handle_request at h
  split_ifs at h with hc
  cases hlk : q.lookup id with
  | none => rw [hlk] at h; exact absurd h (by simp)
  | some r =>
    rw [hlk] at h
    cases hh : r.handle t with
    | none => simp [hh] at h
    | some rr =>
      obtain ⟨r', rel'⟩ := rr
      simp only [hh, Option.bind_eq_bind, Option.some_bind, Option.pure_def,
        Option.some.injEq, Prod.mk.injEq] at h
      obtain ⟨h1, h2⟩ := h
      subst h1
      have hr' : r' = { r with established := some t
                               endTime := some (t + r.handle_ticks)
                               status := .answered } ∧
          r.status = Status.enqueued := by
        unfold Request.handle at hh
        split_ifs at hh with hcond
        · injection hh with hh1
          injection hh1 with hha hhb
          exact ⟨hha.symm, hcond.1⟩
      obtain ⟨hre, hrst⟩ := hr'
      obtain ⟨hnd, hgood⟩ := hq
      have hmemr := q.lookup_mem id r hlk
      have hid : r'.id = id := by rw [hre]; exact hmemr.2
      refine ⟨by rw [ids_update q id r' hid]; exact hnd, ?_⟩
      intro x hx
      rcases mem_update q id r' x hx with rfl | ⟨hmem, _⟩
      · have hnotpend : x.id ∉ q.pendingIds := by
          intro hcontra
          have := (hgood r hmemr.1).1.1 (by
            have : x.id = r.id := by rw [hre]
            exact this ▸ hcontra)
          rw [hrst] at this
          exact Status.noConfusion this
        refine ⟨⟨fun hmem2 => absurd hmem2 hnotpend, fun hp => ?_⟩, fun hp => ?_,
          fun hab => ?_⟩
        · rw [hre] at hp
          exact absurd hp (by simp)
        · rw [hre] at hp
          exact absurd hp (by simp)
        · rw [hre] at hab
          exact absurd hab (by simp)
      · exact hgood x hmem

/-- The routing-loop body preserves the request-queue invariant. -/
lemma routeStep_inv (st st' : Simulation) (p : Nat × Nat)
    (h : st.routeStep p = some st') (hq : InvQ st.request_queue) :
    InvQ st'.request_queue := by
  unfold Simulation.routeStep at h
  cases hh : st.request_queue.handle_request p.1 st.currentTick with
  | none => simp [hh] at h
  | some rqrel =>
    obtain ⟨rq, rel⟩ := rqrel
    simp only [hh, Option.bind_eq_bind, Option.some_bind] at h
    cases he : st.server_queue.enqueue p.2 rel with
    | none => simp [he] at h
    | some sq =>
      simp only [he, Option.some_bind, Option.pure_def, Option.some.injEq] at h
      subst h
      exact handle_request_inv st.request_queue p.1 st.currentTick rq rel hh hq

/-- The routing fold preserves the request-queue invariant. -/
lemma foldlM_routeStep_inv :
    ∀ (l : List (Nat × Nat)) (s s' : Simulation),
      l.foldlM Simulation.routeStep s = some s' →
      InvQ s.request_queue → InvQ s'.request_queue := by
  intro l
  induction l with
  | nil =>
    intro s s' h hq
    simp only [List.foldlM_nil, Option.pure_def, Option.some.injEq] at h
    subst h
    exact hq
  | cons p l ih =>
    intro s s' h hq
    simp only [List.foldlM_cons, Option.bind_eq_bind] at h
    cases hstep : s.routeStep p with
    | none => simp [hstep] at h
    | some s₁ =>
      simp only [hstep, Option.some_bind] at h
      exact ih s₁ s' h (routeStep_inv s s₁ p hstep hq)

/-- `do_routing` preserves the request-queue invariant. -/
lemma do_routing_inv (ρr : List RequestData → List RequestData)
    (ρs : List ServerData → List ServerData) (s s' : Simulation)
    (h : s.do_routing ρr ρs = some s') (hq : InvQ s.request_queue) :
    InvQ s'.request_queue := by
  simp only [Simulation.do_routing] at h
  split at h
  · simp only [Option.some.injEq] at h
    subst h
    exact hq
  · exact foldlM_routeStep_inv _ s s' h hq

/-- `increment_tick` does not touch the request queue. -/
lemma increment_tick_rq (s : Simulation) :
    (s.increment_tick).request_queue = s.request_queue := by
  simp only [Simulation.increment_tick]
  split_ifs <;> rfl

/-- `Simulation::tick` preserves the request-queue invariant. -/
lemma simulation_tick_inv (ρr : List RequestData → List RequestData)
    (ρs : List ServerData → List ServerData) (s s' : Simulation) (b : Bool)
    (h : s.tick ρr ρs = some (s', b)) (hq : InvQ s.request_queue) :
    InvQ s'.request_queue := by
  by_cases hrun : s.running
  · obtain ⟨m, hm, hs', hb⟩ := tick_decomp ρr ρs s s' b hrun h
    have hminv : InvQ m.request_queue := by
      unfold Simulation.routePhase at hm
      cases hrq : s.request_queue.tick s.currentTick with
      | none => simp [hrq] at hm
      | some rq =>
        simp only [hrq, Option.bind_eq_bind, Option.some_bind] at hm
        have hrqinv := RequestQueue.tick_inv s.request_queue s.currentTick rq hrq hq
        exact do_routing_inv ρr ρs _ m hm hrqinv
    rw [hs', increment_tick_rq]
    exact hminv
  · unfold Simulation.tick at h
    rw [if_neg hrun] at h
    simp only [Option.some.injEq, Prod.mk.injEq] at h
    rw [← h.1]
    exact hq

/-- Pushing requests in a loop appends them to the arena. -/
lemma foldl_push (l : List Request) :
    ∀ q : RequestQueue, List.foldl RequestQueue.push q l =
      { q with inner := q.inner ++ l } := by
  induction l with
  | nil => intro q; simp
  | cons a l ih =>
    intro q
    rw [List.foldl_cons, ih]
    simp [RequestQueue.push]

/-- `enable` from an empty arena establishes the invariant: one fresh
pending request per client, all ids distinct, the heap holding exactly
them. -/
lemma enable_inv (rng : Nat → Duration) (s s' : Simulation)
    (hinner : s.request_queue.inner = [])
    (h : Simulation.enable rng s = some s') : InvQ s'.request_queue := by
  unfold Simulation.enable at h
  split_ifs at h with hr
  simp only [Option.some.injEq] at h
  subst h
  simp only [Simulation.generate_requests, foldl_push, RequestQueue.init, hinner,
    List.nil_append]
  constructor
  · rw [List.map_map]
    show (List.map (fun ic : Nat × Client => s.nextRequestId + ic.1)
      s.clients.enum).Nodup
    have hco : (fun ic : Nat × Client => s.nextRequestId + ic.1) =
        (fun i => s.nextRequestId + i) ∘ Prod.fst := rfl
    rw [hco, ← List.map_map, List.enum_map_fst]
    exact List.Nodup.map (add_right_injective s.nextRequestId) (List.nodup_range _)
  · intro r hr2
    obtain ⟨ic, hic, hicr⟩ := List.mem_map.1 hr2
    refine ⟨⟨fun _ => by rw [← hicr]; rfl, fun _ => ?_⟩,
      fun _ => by rw [← hicr]; exact ⟨rfl, rfl⟩, fun hab => ?_⟩
    · exact List.mem_map_of_mem _ hr2
    · rw [← hicr] at hab
      exact absurd hab (by simp [Request.new])

/-- Every reachable simulation state satisfies the request-queue
invariant. -/
lemma reachable_inv (s : Simulation) (h : Reachable s) : InvQ s.request_queue := by
  induction h with
  | new e ts =>
    exact ⟨by simp [Simulation.new, RequestQueue.empty],
      fun r hr => absurd hr (by simp [Simulation.new, RequestQueue.empty])⟩
  | add_client hr he ih =>
    unfold Simulation.add_client at he
    split_ifs at he
    simp only [Option.some.injEq] at he
    rw [← he]
    exact ih
  | add_server hr he ih =>
    unfold Simulation.add_server at he
    split_ifs at he
    simp only [Option.some.injEq] at he
    rw [← he]
    exact ih
  | enable rng hr hinner he ih =>
    exact enable_inv rng _ _ hinner he
  | step ρr ρs hr htick ih =>
    exact simulation_tick_inv ρr ρs _ _ _ htick ih

/-- A client whose abandon deadline outlives the run. -/
def c10Client : Client :=
  { required_attributes := [], handle_time := 50, clean_up_time := 0
    abandon_time := 1000 }

/-- Sampled starts: the first request at 0, the second exactly at `end`. -/
def c10Rng : Nat → Duration := fun i => if i = 0 then 0 else 100

def c10Sim0 : Simulation := Simulation.new 100 60

def c10Sim1 : Simulation := { c10Sim0 with clients := [c10Client] }

def c10Sim2 : Simulation := { c10Sim0 with clients := [c10Client, c10Client] }

def c10Sim3 : Simulation := (Simulation.enable c10Rng c10Sim2).getD c10Sim2

def c10Sim4 : Simulation :=
  ((Simulation.tick id id c10Sim3).map Prod.fst).getD c10Sim3

def c10Sim5 : Simulation :=
  ((Simulation.tick id id c10Sim4).map Prod.fst).getD c10Sim4

/-- The demo run (two clients, no server, one never-released start) is
reachable. -/
lemma c10_reach : Reachable c10Sim5 :=
  @Reachable.step c10Sim4 c10Sim5 false id id
    (@Reachable.step c10Sim3 c10Sim4 true id id
      (@Reachable.enable c10Sim2 c10Sim3 c10Rng
        (@Reachable.add_client c10Sim1 c10Client c10Sim2
          (@Reachable.add_client c10Sim0 c10Client c10Sim1
            (Reachable.new 100 60) (by decide))
          (by decide))
        (by decide) (by decide))
      (by decide))
    (by decide)

/-- The request materialized for the second client, never released. -/
def c10ReqB : Request := Request.new 1 100 1100 50 [] c10Client

/-- **C10.** When a run has stopped, the request list read back for metrics
may contain non-terminal requests: every request still in the pending heap
(its start never reached) is `Pending` with no `established`/`end`; a
request is `Pending` only while in the heap (so released, unanswered
requests are not); abandonment happens only at or past the deadline; and
every such request still appears in the outcomes consumed by the
aggregator. A concrete stopped run exhibits both a `Pending` and an
`Enqueued` request in its final list. -/
theorem final_request_list_spec :
    (∀ s : Simulation, Reachable s → s.running = false →
      ∀ r ∈ s.request_queue.inner,
        (r.id ∈ s.request_queue.pendingIds →
          r.status = Status.pending ∧ r.established = none ∧ r.endTime = none) ∧
        (r.status = Status.pending → r.id ∈ s.request_queue.pendingIds) ∧
        (r.status = Status.abandoned →
          ∃ t, r.endTime = some t ∧ r.abandon_ticks ≤ t) ∧
        r.outcome ∈ s.request_outcomes) ∧
    (∃ s : Simulation, Reachable s ∧ s.running = false ∧
      (∃ r ∈ s.request_queue.inner, r.status = Status.pending) ∧
      (∃ r ∈ s.request_queue.inner, r.status = Status.enqueued)) := by
  constructor
  · intro s hreach _ r hr
    obtain ⟨hnd, hgood⟩ := reachable_inv s hreach
    obtain ⟨hiff, hpend, hab⟩ := hgood r hr
    exact ⟨fun hm => ⟨hiff.1 hm, hpend (hiff.1 hm)⟩, hiff.2, hab,
      List.mem_map_of_mem _ hr⟩
  · exact ⟨c10Sim5, c10_reach, by decide, by decide, by decide⟩

/-- Witness for C10: the never-released request of the demo run. -/
theorem final_request_list_spec_witness :
    (c10ReqB.id ∈ c10Sim5.request_queue.pendingIds →
      c10ReqB.status = Status.pending ∧ c10ReqB.established = none ∧
      c10ReqB.endTime = none) ∧
    (c10ReqB.status = Status.pending →
      c10ReqB.id ∈ c10Sim5.request_queue.pendingIds) ∧
    (c10ReqB.status = Status.abandoned →
      ∃ t, c10ReqB.endTime = some t ∧ c10ReqB.abandon_ticks ≤ t) ∧
    c10ReqB.outcome ∈ c10Sim5.request_outcomes :=
  final_request_list_spec.1 c10Sim5 c10_reach (by decide) c10ReqB (by decide)

end Awt


